import Mathlib

/-!
# odh-cli: table printer, formatter pipeline and component matching

A shallow embedding of the Go sources

* `pkg/printer/table/renderer_options.go` (`WithFormatter`, `JQFormatter`, `ChainFormatters`),
* `pkg/printer/printer.go` (`TablePrinter.PrintResults`, `appendCategoryWithTree`),
* `pkg/components/components.go` (the matching step of `GetComponentByType`),
* `cmd/components/list/list.go` (the column queries of the list command),

together with the properties proved about them.

Conventions.

* A Go `any` is a `Value`.  A Go `panic` is the `.error` of an `Except String _`
  (the string is the panic message); a normal return is `.ok`.
* Go maps are association lists; a lookup takes the first binding of a key.
* Numbers are integers: the properties below involve no arithmetic.
* The library gojq is external: its parser and evaluator are parameters where a
  property holds for any, and are modelled on a fragment of jq elsewhere.
-/

set_option autoImplicit false

namespace OdhCli

/-! ## Values -/

/-- A Go value of interface type `any`, as far as the printer can meet one.
`int` is a Go integer (of at most 64 bits), `float` a `float64` whose value is an
integer (what `encoding/json` decodes an integral number to; numbers with a
fractional part are not represented), `map` a `map[string]any`, `struct` a typed
record with its exported fields in declaration order, without json tags and without
a `MarshalJSON` method, `func` a value `encoding/json` cannot encode (a function or
a channel, with the name of its Go type). -/
inductive Value where
  | nil
  | bool (b : Bool)
  | int (n : Int)
  | float (n : Int)
  | str (s : String)
  | slice (xs : List Value)
  | map (kvs : List (String × Value))
  | struct (fields : List (String × Value))
  | func (typeName : String)

instance : Inhabited Value := ⟨Value.nil⟩

/-- The Go type `ColumnFormatter = func(value any) any`; the function may panic. -/
abbrev ColumnFormatter := Value → Except String Value

/-- Lookup of a key in a Go map. -/
def lookupKey (name : String) : List (String × Value) → Option Value
  | [] => none
  | (k, v) :: rest => if k = name then some v else lookupKey name rest

/-! ## `ChainFormatters` (renderer_options.go, lines 90-112) -/

/-- The loop `for _, formatter := range formatters { result = formatter(result) }`. -/
def chainLoop : List ColumnFormatter → Value → Except String Value
  | [], result => .ok result
  | formatter :: rest, result =>
    match formatter result with
    | .error p => .error p
    | .ok r => chainLoop rest r

/-- The function `ChainFormatters(formatters ...ColumnFormatter) ColumnFormatter`. -/
def ChainFormatters (formatters : List ColumnFormatter) : ColumnFormatter :=
  if formatters.length = 0 then
    fun value => .ok value
  else if h : formatters.length = 1 then
    formatters.get ⟨0, by omega⟩
  else
    fun value => chainLoop formatters value

/-- A formatter that cannot panic, given by the function it computes. -/
def pureStage (f : Value → Value) : ColumnFormatter := fun v => .ok (f v)

/-! ## The doctor results (pkg/doctor) and the table printer (printer.go) -/

/-- The type `doctor.Check` as `appendCategoryWithTree` reads it: `Status` is a
string type (the source converts it with `string(check.Status)`). -/
structure Check where
  Name : String
  Status : String
  Message : String

/-- The type `doctor.Category` as `appendCategoryWithTree` reads it. -/
structure Category where
  Name : String
  Status : String
  Message : String
  Checks : List Check

/-- The argument `[]any{name, string(status), message}` of `renderer.Append`. -/
def rowOf (name status message : String) : Value :=
  .slice [.str name, .str status, .str message]

/-- The loop over `category.Checks` of `appendCategoryWithTree`, entered at index `i`
with the checks from `i` on still to visit; `n` is `len(category.Checks)`.  `Append`
is `(*table.Renderer).Append`: it returns the renderer after the call and the error,
if any. -/
def appendChecks {ρ ε : Type} (Append : ρ → Value → ρ × Option ε) (n : Nat) :
    Nat → List Check → ρ → ρ × Option ε
  | _, [], renderer => (renderer, none)
  | i, check :: rest, renderer =>
    let connector := if (i : Int) = (n : Int) - 1 then "└── " else "├── "
    match Append renderer (rowOf (connector ++ check.Name) check.Status check.Message) with
    | (r, some err) => (r, some err)
    | (r, none) => appendChecks Append n (i + 1) rest r

/-- The method `(p *TablePrinter) appendCategoryWithTree(renderer, category) error`
(printer.go, lines 66-88). -/
def appendCategoryWithTree {ρ ε : Type} (Append : ρ → Value → ρ × Option ε)
    (renderer : ρ) (category : Category) : ρ × Option ε :=
  match Append renderer (rowOf category.Name category.Status category.Message) with
  | (r, some err) => (r, some err)
  | (r, none) => appendChecks Append category.Checks.length 0 category.Checks r

/-- The rows of the checks as the specification words them: every check but the
last under the continuing connector, then the last check under the terminating
connector. -/
def childRows (checks : List Check) : List Value :=
  checks.dropLast.map (fun k => rowOf ("├── " ++ k.Name) k.Status k.Message) ++
    checks.getLast?.toList.map (fun k => rowOf ("└── " ++ k.Name) k.Status k.Message)

/-- The rows of a category as the specification words them: the parent row, with no
connector, then the rows of its checks. -/
def treeRows (c : Category) : List Value :=
  rowOf c.Name c.Status c.Message :: childRows c.Checks

/-- Appending rows one after the other, stopping at the first failure. -/
def appendEach {ρ ε : Type} (Append : ρ → Value → ρ × Option ε) :
    ρ → List Value → ρ × Option ε
  | renderer, [] => (renderer, none)
  | renderer, row :: rest =>
    match Append renderer row with
    | (r, some err) => (r, some err)
    | (r, none) => appendEach Append r rest

/-- A renderer that only records the rows it is given and never fails. -/
def recordRow (rows : List Value) (row : Value) : List Value × Option Empty :=
  (rows ++ [row], none)

/-- The function literal that `TablePrinter.PrintResults` registers with
`table.WithFormatter("STATUS", ...)` (printer.go, lines 44-57).  `green`, `yellow`
and `red` are the `SprintFunc`s of the colour library; `StatusOK`, `StatusWarning`
and `StatusError` are the constants of package doctor.  The type assertion
`value.(string)` panics on a value that is not a string (the text of the panic is
abridged: Go also names the type of the value). -/
def statusFormatter (green yellow red : String → String)
    (StatusOK StatusWarning StatusError : String) : ColumnFormatter
  | .str v =>
    if v = StatusOK then .ok (.str (green v))
    else if v = StatusWarning then .ok (.str (yellow v))
    else if v = StatusError then .ok (.str (red v))
    else .ok (.str v)
  | _ => .error "interface conversion: interface {} is not string"

/-! ## JSON normalisation (`json.Marshal` followed by `json.Unmarshal`) -/

/-- The `float64` nearest to an integer of at most 64 bits, which is an integer too:
the integer itself below 2^53 in absolute value, otherwise the nearest multiple of
the spacing of the `float64`s around it, a tie going to the even significand.  This
is what decoding the decimal digits of the integer into a `float64` gives. -/
def roundFloat64 (n : Int) : Int :=
  let m := n.natAbs
  if m < 2 ^ 53 then n
  else
    let e := Nat.log2 m + 1 - 53
    let q := m / 2 ^ e
    let r := m % 2 ^ e
    let half := 2 ^ (e - 1)
    let q2 := if r > half ∨ (r = half ∧ q % 2 = 1) then q + 1 else q
    if n < 0 then -((q2 * 2 ^ e : Nat) : Int) else ((q2 * 2 ^ e : Nat) : Int)

mutual
/-- The value `normalizedValue` that `JQFormatter` obtains from `value` by
`json.Marshal` and `json.Unmarshal` into an `any`: numbers become `float64` (an
integer the nearest one), structs become maps keyed by field name, and a value that
cannot be encoded is an error (the text of `json.UnsupportedTypeError`). -/
def normalizeValue : Value → Except String Value
  | .nil => .ok .nil
  | .bool b => .ok (.bool b)
  | .int n => .ok (.float (roundFloat64 n))
  | .float n => .ok (.float n)
  | .str s => .ok (.str s)
  | .slice xs =>
    match normalizeList xs with
    | .ok ys => .ok (.slice ys)
    | .error e => .error e
  | .map kvs =>
    match normalizeFields kvs with
    | .ok ys => .ok (.map ys)
    | .error e => .error e
  | .struct fields =>
    match normalizeFields fields with
    | .ok ys => .ok (.map ys)
    | .error e => .error e
  | .func typeName => .error ("json: unsupported type: " ++ typeName)
/-- Normalisation of the elements of a slice. -/
def normalizeList : List Value → Except String (List Value)
  | [] => .ok []
  | x :: xs =>
    match normalizeValue x with
    | .error e => .error e
    | .ok y =>
      match normalizeList xs with
      | .error e => .error e
      | .ok ys => .ok (y :: ys)
/-- Normalisation of the entries of a map or the fields of a struct. -/
def normalizeFields : List (String × Value) → Except String (List (String × Value))
  | [] => .ok []
  | (k, x) :: xs =>
    match normalizeValue x with
    | .error e => .error e
    | .ok y =>
      match normalizeFields xs with
      | .error e => .error e
      | .ok ys => .ok ((k, y) :: ys)
end

mutual
/-- The JSON values: what `json.Unmarshal` into an `any` produces. -/
def isJSON : Value → Bool
  | .nil => true
  | .bool _ => true
  | .int _ => false
  | .float _ => true
  | .str _ => true
  | .slice xs => isJSONList xs
  | .map kvs => isJSONFields kvs
  | .struct _ => false
  | .func _ => false
/-- All elements are JSON values. -/
def isJSONList : List Value → Bool
  | [] => true
  | x :: xs => isJSON x && isJSONList xs
/-- All entries hold JSON values. -/
def isJSONFields : List (String × Value) → Bool
  | [] => true
  | (_, x) :: xs => isJSON x && isJSONFields xs
end

/-! ## The jq fragment of the gojq library

The library `github.com/itchyny/gojq` is not part of the repository.  Its parser and
its evaluator are modelled for the fragment of jq the repository writes its queries
in: the identity, field access, iteration, the postfix `?`, string literals,
`select(f)`, comparison of a term with a string literal, `//` and `|`. -/

/-- An error of gojq at `Run`, by kind: an evaluation error with the offending value,
or the failure to compile a call of a function gojq does not define (of no argument,
by its name). -/
inductive JqError where
  | expectedObject (v : Value)
  | cannotIterate (v : Value)
  | functionNotDefined (name : String)

/-- The results a query yields, in order; an error ends the results. -/
abbrev Stream := List (Except JqError Value)

/-- A query of the fragment.  `indexTry` and `iterTry` are a field access and an
iteration followed by `?`: the `?` guards that last suffix only, the term before it is
evaluated outside the guard.  `call` is a call, without argument, of a function that
gojq does not define: such a query parses and does not compile. -/
inductive Query where
  | identity
  | index (t : Query) (name : String)
  | indexTry (t : Query) (name : String)
  | iter (t : Query)
  | iterTry (t : Query)
  | try (t : Query)
  | str (s : String)
  | select (f : Query)
  | eqStr (l : Query) (s : String)
  | alt (l r : Query)
  | pipe (l r : Query)
  | call (name : String)

/-- The jq truth of a value: everything but `null` and `false`. -/
def truthy : Value → Bool
  | .nil => false
  | .bool false => false
  | _ => true

/-- The results of `s` followed by those of `t`, unless `s` ends in an error. -/
def Stream.andThen : Stream → Stream → Stream
  | [], t => t
  | .error e :: _, _ => [.error e]
  | .ok v :: s, t => .ok v :: Stream.andThen s t

/-- Feeding every result of `s` to `f`, in order, up to the first error. -/
def Stream.bind : Stream → (Value → Stream) → Stream
  | [], _ => []
  | .error e :: _, _ => [.error e]
  | .ok v :: s, f => Stream.andThen (f v) (Stream.bind s f)

/-- The results before the first error: what `try` and `?` keep. -/
def Stream.suppress : Stream → List Value
  | [] => []
  | .error _ :: _ => []
  | .ok v :: s => v :: Stream.suppress s

/-- The results of `l // r` from those of `l` and of `r`: the true results of `l`, an
error of `l` where it occurs, and the results of `r` when `l` ends without an error
and without a true result.  `found` tells whether a true result was met. -/
def Stream.alternative : Bool → Stream → Stream → Stream
  | found, [], r => if found then [] else r
  | _, .error e :: _, _ => [.error e]
  | found, .ok x :: l, r =>
    if truthy x then .ok x :: Stream.alternative true l r else Stream.alternative found l r

/-- Field access `.name`: the value of the key in an object, `null` when the key is
missing or the input is `null`, an error on any other input. -/
def indexField (name : String) : Value → Except JqError Value
  | .map kvs => .ok ((lookupKey name kvs).getD .nil)
  | .nil => .ok .nil
  | v => .error (.expectedObject v)

/-- Insertion of an entry into a list of entries ordered by key. -/
def insertByKey (e : String × Value) : List (String × Value) → List (String × Value)
  | [] => [e]
  | x :: xs => if e.1 < x.1 then e :: x :: xs else x :: insertByKey e xs

/-- The entries of an object ordered by key. -/
def sortByKey : List (String × Value) → List (String × Value)
  | [] => []
  | x :: xs => insertByKey x (sortByKey xs)

/-- Iteration `.[]`: the elements of an array, the values of an object in key order,
an error on any other input. -/
def iterate : Value → Stream
  | .slice xs => xs.map .ok
  | .map kvs => (sortByKey kvs).map (fun kv => .ok kv.2)
  | v => [.error (.cannotIterate v)]

/-- Comparison `== "s"` of a value with a string literal. -/
def equalsStr (s : String) : Value → Bool
  | .str t => t = s
  | _ => false

/-- The results of a query on an input: the items of the iterator of
`(*gojq.Query).Run`, by the semantics of jq.  A field access or an iteration applies
to every result of the term before it; `?` drops the error of what it guards;
`select(f)` yields its input once for every true result of `f`; `l // r` yields the
true results of `l`, its error if it has one, and the results of `r` when `l` has
neither; `l | r` feeds every result of `l` to `r`. -/
def eval : Query → Value → Stream
  | .identity, v => [.ok v]
  | .index t name, v => Stream.bind (eval t v) (fun x => [indexField name x])
  | .indexTry t name, v =>
    Stream.bind (eval t v) (fun x => (Stream.suppress [indexField name x]).map .ok)
  | .iter t, v => Stream.bind (eval t v) iterate
  | .iterTry t, v => Stream.bind (eval t v) (fun x => (Stream.suppress (iterate x)).map .ok)
  | .try t, v => (Stream.suppress (eval t v)).map .ok
  | .str s, _ => [.ok (.str s)]
  | .select f, v => Stream.bind (eval f v) (fun c => if truthy c then [.ok v] else [])
  | .eqStr l s, v => Stream.bind (eval l v) (fun x => [.ok (.bool (equalsStr s x))])
  | .alt l r, v => Stream.alternative false (eval l v) (eval r v)
  | .pipe l r, v => Stream.bind (eval l v) (fun x => eval r x)
  | .call name, _ => [.error (.functionNotDefined name)]

/-! ### The parser of the fragment -/

/-- The tokens of the fragment. -/
inductive Token where
  | dot
  | field (name : String)
  | ident (name : String)
  | str (s : String)
  | pipe
  | alt
  | eq
  | lparen
  | rparen
  | lbrack
  | rbrack
  | question

/-- The first character of an identifier. -/
def isIdentStart (c : Char) : Bool := c.isAlpha || c = '_'

/-- A character of an identifier. -/
def isIdentChar (c : Char) : Bool := c.isAlphanum || c = '_'

/-- The body of a string literal, after its opening quote (character 34), and what
follows the closing quote.  Escapes (the backslash, character 92) are outside the
fragment. -/
def lexString : List Char → Option (List Char × List Char)
  | [] => none
  | c :: cs =>
    if c = Char.ofNat 34 then some ([], cs)
    else if c = Char.ofNat 92 then none
    else
      match lexString cs with
      | some (body, rest) => some (c :: body, rest)
      | none => none

/-- The tokens of a query text; `none` when the text leaves the fragment (so for `?//`,
one token of jq, of destructuring).  The fuel bounds the number of steps; one more
than the length of the text is enough. -/
def lex : Nat → List Char → Option (List Token)
  | 0, _ => none
  | _ + 1, [] => some []
  | fuel + 1, c :: cs =>
    if c.isWhitespace then lex fuel cs
    else if c = '|' then (lex fuel cs).map (Token.pipe :: ·)
    else if c = '(' then (lex fuel cs).map (Token.lparen :: ·)
    else if c = ')' then (lex fuel cs).map (Token.rparen :: ·)
    else if c = '[' then (lex fuel cs).map (Token.lbrack :: ·)
    else if c = ']' then (lex fuel cs).map (Token.rbrack :: ·)
    else if c = '?' then
      match cs with
      | d :: e :: _ =>
        if d = '/' && e = '/' then none else (lex fuel cs).map (Token.question :: ·)
      | _ => (lex fuel cs).map (Token.question :: ·)
    else if c = '/' then
      match cs with
      | d :: rest => if d = '/' then (lex fuel rest).map (Token.alt :: ·) else none
      | [] => none
    else if c = '=' then
      match cs with
      | d :: rest => if d = '=' then (lex fuel rest).map (Token.eq :: ·) else none
      | [] => none
    else if c = Char.ofNat 34 then
      match lexString cs with
      | some (body, rest) => (lex fuel rest).map (Token.str (String.mk body) :: ·)
      | none => none
    else if c = '.' then
      match cs with
      | d :: _ =>
        if isIdentStart d then
          (lex fuel (cs.dropWhile isIdentChar)).map
            (Token.field (String.mk (cs.takeWhile isIdentChar)) :: ·)
        else if d = '.' then none
        else (lex fuel cs).map (Token.dot :: ·)
      | [] => some [Token.dot]
    else if isIdentStart c then
      (lex fuel (cs.dropWhile isIdentChar)).map
        (Token.ident (String.mk (c :: cs.takeWhile isIdentChar)) :: ·)
    else none

/-- The suffixes of a term: `.name`, `[]` and `?`.  A `?` right after a field access
or an iteration guards that suffix; any other `?` guards the term before it. -/
def parseSuffixes : Query → List Token → Query × List Token
  | t, .field name :: .question :: rest => parseSuffixes (.indexTry t name) rest
  | t, .field name :: rest => parseSuffixes (.index t name) rest
  | t, .lbrack :: .rbrack :: .question :: rest => parseSuffixes (.iterTry t) rest
  | t, .lbrack :: .rbrack :: rest => parseSuffixes (.iter t) rest
  | t, .question :: rest => parseSuffixes (.try t) rest
  | t, rest => (t, rest)

/-- The keywords of jq: an identifier among them is not the name of a function. -/
def isKeyword (name : String) : Bool :=
  name ∈ ["or", "and", "module", "import", "include", "def", "as", "label", "break",
    "null", "true", "false", "if", "then", "elif", "else", "end", "try", "catch",
    "reduce", "foreach"]

mutual
/-- A pipeline `alt | pipeline`: the operator of lowest precedence, right associative. -/
def parsePipe (defined : String → Bool) : Nat → List Token → Option (Query × List Token)
  | 0, _ => none
  | fuel + 1, ts =>
    match parseAlt defined fuel ts with
    | some (l, .pipe :: rest) =>
      match parsePipe defined fuel rest with
      | some (r, rest2) => some (.pipe l r, rest2)
      | none => none
    | other => other
/-- An alternative `cmp // alternative`: binds tighter than the pipe, right associative. -/
def parseAlt (defined : String → Bool) : Nat → List Token → Option (Query × List Token)
  | 0, _ => none
  | fuel + 1, ts =>
    match parseCmp defined fuel ts with
    | some (l, .alt :: rest) =>
      match parseAlt defined fuel rest with
      | some (r, rest2) => some (.alt l r, rest2)
      | none => none
    | other => other
/-- A comparison of a term with a string literal: binds tighter than the alternative. -/
def parseCmp (defined : String → Bool) : Nat → List Token → Option (Query × List Token)
  | 0, _ => none
  | fuel + 1, ts =>
    match parseTerm defined fuel ts with
    | some (l, .eq :: .str s :: rest) => some (.eqStr l s, rest)
    | some (_, .eq :: _) => none
    | other => other
/-- A term: the identity, a field access, a string literal, `select(f)`, a
parenthesised query, or an identifier alone, the call of a function without argument,
followed by its suffixes.  The call of a function that gojq defines is outside the
fragment, as is every call with arguments but `select(f)`. -/
def parseTerm (defined : String → Bool) : Nat → List Token → Option (Query × List Token)
  | 0, _ => none
  | _ + 1, .dot :: rest => some (parseSuffixes .identity rest)
  | _ + 1, .field name :: .question :: rest =>
    some (parseSuffixes (.indexTry .identity name) rest)
  | _ + 1, .field name :: rest => some (parseSuffixes (.index .identity name) rest)
  | _ + 1, .str s :: rest => some (parseSuffixes (.str s) rest)
  | fuel + 1, .ident name :: .lparen :: rest =>
    if name = "select" then
      match parsePipe defined fuel rest with
      | some (f, .rparen :: rest2) => some (parseSuffixes (.select f) rest2)
      | _ => none
    else none
  | _ + 1, .ident name :: rest =>
    if isKeyword name || defined name then none
    else some (parseSuffixes (.call name) rest)
  | fuel + 1, .lparen :: rest =>
    match parsePipe defined fuel rest with
    | some (q, .rparen :: rest2) => some (parseSuffixes q rest2)
    | _ => none
  | _ + 1, _ => none
end

/-- The parser of the fragment (`gojq.Parse` restricted to it): the query of a text,
or `none` for a text that is malformed or leaves the fragment.  `defined` tells
whether gojq defines a function of no argument of a name (its table of functions, a
parameter): an identifier that names none parses, as in gojq, as the call of that
function. -/
def parseFragment (defined : String → Bool) (query : String) : Option Query :=
  match lex (query.length + 1) query.toList with
  | none => none
  | some ts =>
    match parsePipe defined (4 * ts.length + 4) ts with
    | some (q, []) => some q
    | _ => none

/-- The first call, from the left, of a function that is not defined, which is where
the compilation of the query fails. -/
def undefinedCall : Query → Option String
  | .identity => none
  | .index t _ => undefinedCall t
  | .indexTry t _ => undefinedCall t
  | .iter t => undefinedCall t
  | .iterTry t => undefinedCall t
  | .try t => undefinedCall t
  | .str _ => none
  | .select f => undefinedCall f
  | .eqStr l _ => undefinedCall l
  | .alt l r =>
    match undefinedCall l with
    | some name => some name
    | none => undefinedCall r
  | .pipe l r =>
    match undefinedCall l with
    | some name => some name
    | none => undefinedCall r
  | .call name => some name

/-- The compilation of a query of the fragment (`gojq.Compile`): it fails on a call of
a function that is not defined. -/
def compileFragment (q : Query) : Except JqError Query :=
  match undefinedCall q with
  | some name => .error (.functionNotDefined name)
  | none => .ok q

/-! ## `JQFormatter` (renderer_options.go, lines 49-88) -/

/-- The two entry points of gojq that `JQFormatter` calls.  `Parse` returns the
parsed query (the variable `compiledQuery` of the source) or the text of the error;
`Run` gives the items the iterator yields, in order, an error item by the text of its
`Error()`. -/
structure Gojq (Q : Type) where
  Parse : String → Except String Q
  Run : Q → Value → List (Except String Value)

/-- The closure `func(value any) any` that `JQFormatter` returns.  It captures the
parsed query only (the variable `compiledQuery`), here as `run`, the function
`compiledQuery.Run`; it takes the first item of the iterator (`iter.Next()`) and no
other. -/
def jqApply (run : Value → List (Except String Value)) : ColumnFormatter :=
  fun value =>
    match normalizeValue value with
    | .error err => .ok (.str err)
    | .ok normalizedValue =>
      match run normalizedValue with
      | [] => .ok .nil
      | .error err :: _ => .ok (.str err)
      | .ok result :: _ => .ok result

/-- The function `JQFormatter(query string) ColumnFormatter`; `.error` is its panic.
At construction it calls `gojq.Parse` and nothing else of gojq. -/
def JQFormatter {Q : Type} (lib : Gojq Q) (query : String) : Except String ColumnFormatter :=
  match lib.Parse query with
  | .error err => .error ("failed to compile jq query: " ++ err)
  | .ok compiledQuery => .ok (jqApply (lib.Run compiledQuery))

/-- The method `(*gojq.Query).Run` as gojq implements it: it compiles the query, at
every call, and executes the code; when the compilation fails, the error is the one
item of the iterator. -/
def queryRun {Q C : Type} (Compile : Q → Except String C)
    (Execute : C → Value → List (Except String Value)) (q : Q) (v : Value) :
    List (Except String Value) :=
  match Compile q with
  | .error err => [.error err]
  | .ok code => Execute code v

/-- The gojq library on the fragment.  `defined` is its table of the functions of no
argument; the texts of its errors are parameters: `errText` for an error at `Run`,
`syntaxText` for a query text it does not parse. -/
def gojqFragment (defined : String → Bool) (errText : JqError → String)
    (syntaxText : String → String) : Gojq Query where
  Parse := fun query =>
    match parseFragment defined query with
    | some q => .ok q
    | none => .error (syntaxText query)
  Run := queryRun
    (fun q =>
      match compileFragment q with
      | .ok code => .ok code
      | .error e => .error (errText e))
    (fun code v => (eval code v).map (fun item =>
      match item with
      | .ok r => .ok r
      | .error e => .error (errText e)))

/-- The query of the TYPE column of the list command (list.go, line 70). -/
def typeQuery : String := ".kind"

/-- The query of the READY column of the list command (list.go, line 72). -/
def readyQuery : String :=
  ".status.conditions[]? | select(.type==\"Ready\") | .status // \"Unknown\""

/-- The query of the Metadata column of `TestRendererWithJQExtraction`. -/
def locationQuery : String := ".location // \"Unknown\""

/-- Modelled from the spec: the conversion of the final value of a cell to its
display string, which belongs to the renderer (renderer.go, not under src/).  The spec
(4.4): scalars render as their natural textual form; absent/nil renders as the empty
string.  It does not say how a composite value is shown: `showComposite` stands for
that. -/
def displayCell (showComposite : Value → String) : Value → String
  | .nil => ""
  | .bool b => toString b
  | .int n => toString n
  | .float n => toString n
  | .str s => s
  | v => showComposite v

/-- Modelled from the spec: the row of a semi-structured document under columns that
each extract with a query, the columns of `NewWithColumns` (renderer.go, not under
src/), given by their formatters.  The spec (4.2, 4.4): the whole document is the base
value of every column, the query of the column is evaluated against it and the
result is converted to its display string, in column order. -/
def columnsRow (showComposite : Value → String) :
    List ColumnFormatter → Value → Except String (List String)
  | [], _ => .ok []
  | column :: rest, document =>
    match column document with
    | .error p => .error p
    | .ok v =>
      match columnsRow showComposite rest document with
      | .error p => .error p
      | .ok cells => .ok (displayCell showComposite v :: cells)

/-- The record of the scenario in the spec:
a Dashboard whose Ready condition has status True. -/
def dashboardReady : Value :=
  .map [("kind", .str "Dashboard"),
    ("status", .map [("conditions",
      .slice [.map [("type", .str "Ready"), ("status", .str "True")]])])]

/-- A Dashboard whose status has no conditions. -/
def dashboardNoConditions : Value :=
  .map [("kind", .str "Dashboard"), ("status", .map [])]

/-- A Dashboard without status. -/
def dashboardNoStatus : Value :=
  .map [("kind", .str "Dashboard")]

/-- A short text for an evaluation error, for the concrete examples. -/
def briefErrText : JqError → String
  | .expectedObject _ => "expected an object"
  | .cannotIterate _ => "cannot iterate"
  | .functionNotDefined name => "function not defined: " ++ name ++ "/0"

/-- Some of the functions of no argument that gojq defines, for the concrete
examples. -/
def someDefined (name : String) : Bool :=
  name ∈ ["empty", "not", "length", "keys", "values", "type", "add", "tostring"]

/-! ## The renderer (renderer.go, not under src/)

The fields of `Renderer` are those the options of renderer_options.go assign to.
`Append` and what it calls are modelled from the spec.  Case mapping is a parameter,
`ToUpper` for Go's `strings.ToUpper`. -/

/-- The struct `table.Renderer`: the fields `writer`, `headers`, `formatters` and
`tableOptions` that the options of renderer_options.go set (the writer and the
options of the table library by name), and the rows accumulated so far. -/
structure Renderer where
  writer : String
  headers : List String
  formatters : List (String × ColumnFormatter)
  tableOptions : List String
  rows : List (List String)

/-- The entry of a key in the map `r.formatters`. -/
def lookupFormatter (key : String) : List (String × ColumnFormatter) → Option ColumnFormatter
  | [] => none
  | (k, f) :: rest => if k = key then some f else lookupFormatter key rest

/-- Modelled from the spec: the reflective field lookup of the Field Extractor of
renderer.go (not under src/).  The spec (4.2, step 1): match the column header
case-insensitively against the named fields of the typed record; the first match
wins. -/
def findField (ToUpper : String → String) (header : String) :
    List (String × Value) → Option Value
  | [] => none
  | (name, v) :: rest =>
    if ToUpper name = ToUpper header then some v else findField ToUpper header rest

/-- Modelled from the spec: the base value of the cell of column `i`, named `header`,
by the Field Extractor of renderer.go (not under src/).  The spec (4.2): for a typed
record the value of the matching field, absent when no field matches; for a
semi-structured document the whole document.  A row given as a slice, as printer.go
and the tests give it, supplies its cells by position. -/
def extractCell (ToUpper : String → String) (header : String) (i : Nat) : Value → Value
  | .struct fields => (findField ToUpper header fields).getD .nil
  | .slice xs => xs.getD i .nil
  | document => document

/-- Modelled from the spec: one cell of the Row Accumulator of renderer.go (not under
src/).  The spec (4.4): extract, apply the formatter of the column, convert the final
value to its display string.  The formatter of a column is the entry of `formatters`
under the upper-cased header, the key `WithFormatter` stores it under. -/
def renderCell (ToUpper : String → String) (showComposite : Value → String) (r : Renderer)
    (header : String) (i : Nat) (record : Value) : Except String String :=
  match lookupFormatter (ToUpper header) r.formatters with
  | none => .ok (displayCell showComposite (extractCell ToUpper header i record))
  | some formatter =>
    match formatter (extractCell ToUpper header i record) with
    | .error p => .error p
    | .ok v => .ok (displayCell showComposite v)

/-- Modelled from the spec: the cells of a row, for the headers from column `i` on,
in column order (renderer.go, not under src/). -/
def renderRow (ToUpper : String → String) (showComposite : Value → String) (r : Renderer)
    (record : Value) : Nat → List String → Except String (List String)
  | _, [] => .ok []
  | i, header :: rest =>
    match renderCell ToUpper showComposite r header i record with
    | .error p => .error p
    | .ok cell =>
      match renderRow ToUpper showComposite r record (i + 1) rest with
      | .error p => .error p
      | .ok cells => .ok (cell :: cells)

/-- Modelled from the spec: the method `(*Renderer).Append` of renderer.go (not under
src/).  The spec (4.4): the row of the record, one cell per column in column order, is
appended to the rows of the table; a panic of a formatter is the `.error`. -/
def Renderer.Append (ToUpper : String → String) (showComposite : Value → String)
    (r : Renderer) (record : Value) : Except String Renderer :=
  match renderRow ToUpper showComposite r record 0 r.headers with
  | .error p => .error p
  | .ok row => .ok { r with rows := r.rows ++ [row] }

/-- The record `testPerson{Name: "Alice", Age: 30}` of renderer_test.go; the field
`Status` has its zero value. -/
def alice : Value :=
  .struct [("Name", .str "Alice"), ("Age", .int 30), ("Status", .str "")]

/-- A renderer with the given headers, no formatter and no row. -/
def rendererWithHeaders (headers : List String) : Renderer :=
  { writer := "buf", headers := headers, formatters := [], tableOptions := [], rows := [] }

/-- Upper case of the ASCII letters, where Go's `strings.ToUpper` agrees with it;
for the concrete examples. -/
def upperASCII (s : String) : String := String.mk (s.toList.map Char.toUpper)

/-- Lower case of the ASCII letters, where Go's `strings.ToLower` agrees with it;
for the concrete examples. -/
def lowerASCII (s : String) : String := String.mk (s.toList.map Char.toLower)

/-! ## Component lookup by type (components.go) -/

/-- The fields of `metav1.APIResource` that the component functions read. -/
structure APIResource where
  Name : String
  Kind : String
deriving DecidableEq, Repr

/-- The errors of `GetComponentByType`, by the `fmt.Errorf` call that builds them,
with the arguments of the call. -/
inductive GetError where
  | discoveryFailed (err : String)
  | multipleExact (typeName : String)
  | ambiguous (typeName : String) (matchNames : List String)
  | noMatchingType (typeName : String)
  | listFailed (resource : String) (err : String)
  | noInstances (resource : String)
deriving DecidableEq, Repr

/-- The test `strings.Contains(s, substr)` on the characters of `s`. -/
def containsChars (substr : List Char) : List Char → Bool
  | [] => substr.isPrefixOf []
  | c :: cs => substr.isPrefixOf (c :: cs) || containsChars substr cs

/-- The function `strings.Contains(s, substr)`. -/
def stringsContains (s substr : String) : Bool :=
  containsChars substr.toList s.toList

/-- The test that skips a subresource: a name with a "/", or an empty kind. -/
def isSubresource (resource : APIResource) : Bool :=
  stringsContains resource.Name "/" || resource.Kind = ""

/-- The loop of `GetComponentByType` over the discovered resources (components.go,
lines 114-129), with the two slices it appends to. -/
def matchLoop (ToLower : String → String) (lowerTypeName : String) :
    List APIResource → List APIResource → List APIResource →
      List APIResource × List APIResource
  | [], exactMatches, partialMatches => (exactMatches, partialMatches)
  | resource :: rest, exactMatches, partialMatches =>
    if stringsContains resource.Name "/" || resource.Kind = "" then
      matchLoop ToLower lowerTypeName rest exactMatches partialMatches
    else if ToLower resource.Name = lowerTypeName then
      matchLoop ToLower lowerTypeName rest (exactMatches ++ [resource]) partialMatches
    else if stringsContains (ToLower resource.Name) lowerTypeName ||
        stringsContains lowerTypeName (ToLower resource.Name) then
      matchLoop ToLower lowerTypeName rest exactMatches (partialMatches ++ [resource])
    else
      matchLoop ToLower lowerTypeName rest exactMatches partialMatches

/-- The choice of `matchedResource` (components.go, lines 131-148). -/
def chooseMatch (typeName : String) (exactMatches partialMatches : List APIResource) :
    Except GetError APIResource :=
  if h : exactMatches.length = 1 then
    .ok (exactMatches.get ⟨0, by omega⟩)
  else if exactMatches.length > 1 then
    .error (.multipleExact typeName)
  else if h2 : partialMatches.length = 1 then
    .ok (partialMatches.get ⟨0, by omega⟩)
  else if partialMatches.length > 1 then
    .error (.ambiguous typeName (partialMatches.map (fun m => m.Name)))
  else
    .error (.noMatchingType typeName)

/-- The matching step of `GetComponentByType`: from the discovered resources and
the type name to the matched resource (components.go, lines 108-148).  `ToLower`
is Go's `strings.ToLower`. -/
def matchResource (ToLower : String → String) (componentResources : List APIResource)
    (typeName : String) : Except GetError APIResource :=
  let m := matchLoop ToLower (ToLower typeName) componentResources [] []
  chooseMatch typeName m.1 m.2

/-- The function `GetComponentByType`.  `discovered` is the result of
`GetGroupVersionResources`, `list` the listing of the instances of a resource by the
dynamic client. -/
def GetComponentByType (ToLower : String → String)
    (discovered : Except String (List APIResource))
    (list : String → Except String (List Value)) (typeName : String) :
    Except GetError Value :=
  match discovered with
  | .error err => .error (.discoveryFailed err)
  | .ok componentResources =>
    match matchResource ToLower componentResources typeName with
    | .error e => .error e
    | .ok matchedResource =>
      match list matchedResource.Name with
      | .error err => .error (.listFailed matchedResource.Name err)
      | .ok [] => .error (.noInstances matchedResource.Name)
      | .ok (item :: _) => .ok item

/-! ## Listing the components (components.go, lines 18-66) -/

/-- The loop of `ListComponents` over the discovered resources, with the items
gathered so far.  `listResource` is the call `client.Dynamic.Resource(gvr).List(...)` for the
resource of a name: from the state of the cluster client before the call to the
state after it and the items listed or the error. -/
def listLoop {κ : Type} (listResource : κ → String → κ × Except String (List Value)) :
    List APIResource → κ → List Value → κ × List Value
  | [], client, items => (client, items)
  | resource :: rest, client, items =>
    if stringsContains resource.Name "/" then
      listLoop listResource rest client items
    else if resource.Kind = "" then
      listLoop listResource rest client items
    else
      match listResource client resource.Name with
      | (client2, .error _) => listLoop listResource rest client2 items
      | (client2, .ok listed) => listLoop listResource rest client2 (items ++ listed)

/-- The function `ListComponents`.  `discovered` is the result of
`GetGroupVersionResources`; the result is the state of the client after the calls
and the list of items or the error. -/
def ListComponents {κ : Type} (discovered : Except String (List APIResource))
    (listResource : κ → String → κ × Except String (List Value)) (client : κ) :
    κ × Except String (List Value) :=
  match discovered with
  | .error err => (client, .error ("failed to discover component resources: " ++ err))
  | .ok componentResources =>
    match listLoop listResource componentResources client [] with
    | (client2, items) => (client2, .ok items)

/-- The items of the resources of a list, each listed in turn, in order: those of a
listing that fails are none. -/
def listedItems {κ : Type} (listResource : κ → String → κ × Except String (List Value)) :
    List APIResource → κ → κ × List Value
  | [], client => (client, [])
  | resource :: rest, client =>
    match listResource client resource.Name with
    | (client2, .error _) => listedItems listResource rest client2
    | (client2, .ok listed) =>
      match listedItems listResource rest client2 with
      | (client3, items) => (client3, listed ++ items)

/-- A cluster client that answers by a fixed function of the resource name and keeps
the names it was asked to list, in order. -/
def loggingClient (list : String → Except String (List Value)) :
    List String → String → List String × Except String (List Value) :=
  fun log name => (log ++ [name], list name)

/-! ## The output format (pkg/printer/types.go) -/

/-- The type `OutputFormat`, a string type. -/
structure OutputFormat where
  value : String
deriving DecidableEq, Repr

/-- The constant `JSON`. -/
def JSON : OutputFormat := ⟨"json"⟩

/-- The constant `Table`. -/
def Table : OutputFormat := ⟨"table"⟩

/-- The method `(f *OutputFormat) Set(v string) error`: the format after the call
and the error, if any (the text that `fmt.Errorf` builds). -/
def OutputFormat.Set (f : OutputFormat) (v : String) : OutputFormat × Option String :=
  if v = JSON.value ∨ v = Table.value then
    (⟨v⟩, none)
  else
    (f, some ("invalid format: " ++ v ++ " (must be '" ++ Table.value ++ "' or '" ++
      JSON.value ++ "')"))

/-- The method `(f *OutputFormat) String() string`. -/
def OutputFormat.String (f : OutputFormat) : String := f.value

/-! ## The options of the renderer (renderer_options.go, lines 17-47) -/

/-- The assignment `m[key] = formatter` on the map of formatters: the entry of the
key, if any, is replaced. -/
def setFormatter (key : String) (formatter : ColumnFormatter)
    (m : List (String × ColumnFormatter)) : List (String × ColumnFormatter) :=
  (key, formatter) :: m.filter (fun e => !decide (e.1 = key))

/-- The option `WithWriter(w)`, applied to a renderer. -/
def WithWriter (w : String) (r : Renderer) : Renderer :=
  { r with writer := w }

/-- The option `WithHeaders(headers...)`, applied to a renderer. -/
def WithHeaders (headers : List String) (r : Renderer) : Renderer :=
  { r with headers := headers }

/-- The option `WithFormatter(columnName, formatter)`, applied to a renderer: the
formatter is stored under `strings.ToUpper(columnName)` (a nil map is an empty map). -/
def WithFormatter (ToUpper : String → String) (columnName : String)
    (formatter : ColumnFormatter) (r : Renderer) : Renderer :=
  { r with formatters := setFormatter (ToUpper columnName) formatter r.formatters }

/-- The option `WithTableOptions(values...)`, applied to a renderer. -/
def WithTableOptions (values : List String) (r : Renderer) : Renderer :=
  { r with tableOptions := r.tableOptions ++ values }

/-- The number of formatters registered under a key. -/
def registeredUnder (key : String) (m : List (String × ColumnFormatter)) : Nat :=
  (m.filter (fun e => decide (e.1 = key))).length

/-- The resources that are not subresources and whose name partially matches the
type name: the lower-cased name contains the lower-cased type name or is contained
in it. -/
def partialCandidates (ToLower : String → String) (rs : List APIResource)
    (typeName : String) : List APIResource :=
  rs.filter (fun x => !isSubresource x &&
    (stringsContains (ToLower x.Name) (ToLower typeName) ||
      stringsContains (ToLower typeName) (ToLower x.Name)))

/-- The items that a fixed listing function gives for the resources of a list, in
order: those of a listing that fails are none. -/
def concatListed (list : String → Except String (List Value)) : List APIResource → List Value
  | [] => []
  | resource :: rest =>
    match list resource.Name with
    | .error _ => concatListed list rest
    | .ok listed => listed ++ concatListed list rest

/-- A listing for the concrete examples: one Dashboard, a failure for the kserves,
two items for the rays. -/
def exampleListing : String → Except String (List Value)
  | "dashboards" => .ok [.map [("kind", .str "Dashboard")]]
  | "kserves" => .error "forbidden"
  | "rays" => .ok [.map [("kind", .str "Ray")], .map [("kind", .str "Ray")]]
  | _ => .ok []

/-! # Properties -/

/-! ### Lemmas on `ChainFormatters` -/

theorem chainLoop_eq_foldlM (fs : List ColumnFormatter) (x : Value) :
    chainLoop fs x = fs.foldlM (fun acc f => f acc) x := by
  induction fs generalizing x with
  | nil => rfl
  | cons f rest ih =>
    simp only [chainLoop, List.foldlM_cons]
    cases hf : f x with
    | error p => rfl
    | ok r => simpa [bind, Except.bind] using ih r

theorem chainLoop_pure (ps : List (Value → Value)) (x : Value) :
    chainLoop (ps.map pureStage) x = .ok (ps.foldl (fun acc p => p acc) x) := by
  induction ps generalizing x with
  | nil => rfl
  | cons p rest ih => simpa [chainLoop, pureStage] using ih (p x)

theorem ChainFormatters_eq_chainLoop (fs : List ColumnFormatter) (x : Value) :
    ChainFormatters fs x = chainLoop fs x := by
  match fs with
  | [] => rfl
  | [f] =>
    simp only [ChainFormatters, List.length_singleton, one_ne_zero, ↓reduceIte, ↓reduceDIte,
      chainLoop]
    show f x = _
    cases f x <;> rfl
  | f :: g :: rest =>
    simp [ChainFormatters]

/-- C1: for every list of formatters (of any length) and every value, the chain is
the left-to-right fold of the stages, the output of a stage being the input of the
next (a panic of a stage ends the chain); the empty chain is the identity, the chain
of two stages `f, g` is `g` after `f`, and on stages that cannot panic the chain
computes the plain left-to-right fold of the stage functions. -/
theorem ChainFormatters_fold :
    (∀ (fs : List ColumnFormatter) (x : Value),
        ChainFormatters fs x = fs.foldlM (fun acc f => f acc) x) ∧
    (∀ x : Value, ChainFormatters [] x = .ok x) ∧
    (∀ (f : ColumnFormatter) (x : Value), ChainFormatters [f] x = f x) ∧
    (∀ (f g : ColumnFormatter) (x : Value), ChainFormatters [f, g] x = f x >>= g) ∧
    (∀ (f g : Value → Value) (x : Value),
        ChainFormatters [pureStage f, pureStage g] x = .ok (g (f x))) ∧
    (∀ (ps : List (Value → Value)) (x : Value),
        ChainFormatters (ps.map pureStage) x = .ok (ps.foldl (fun acc p => p acc) x)) := by
  refine ⟨fun fs x => ?_, fun x => rfl, fun f x => rfl, fun f g x => ?_, fun f g x => rfl,
    fun ps x => ?_⟩
  · rw [ChainFormatters_eq_chainLoop, chainLoop_eq_foldlM]
  · rw [ChainFormatters_eq_chainLoop]
    simp only [chainLoop]
    cases f x with
    | error p => rfl
    | ok r => cases hg : g r <;> simp [bind, Except.bind, hg]
  · rw [ChainFormatters_eq_chainLoop, chainLoop_pure]

/-! ### Lemmas on `appendCategoryWithTree` -/

theorem childRows_nil : childRows [] = [] := rfl

theorem childRows_single (k : Check) :
    childRows [k] = [rowOf ("└── " ++ k.Name) k.Status k.Message] := rfl

theorem childRows_cons_cons (k k2 : Check) (ks : List Check) :
    childRows (k :: k2 :: ks) =
      rowOf ("├── " ++ k.Name) k.Status k.Message :: childRows (k2 :: ks) := by
  simp [childRows]

theorem appendChecks_eq_appendEach {ρ ε : Type} (Append : ρ → Value → ρ × Option ε)
    (rest : List Check) (i : Nat) (renderer : ρ) :
    appendChecks Append (i + rest.length) i rest renderer =
      appendEach Append renderer (childRows rest) := by
  induction rest generalizing i renderer with
  | nil => rfl
  | cons check rest ih =>
    cases rest with
    | nil =>
      have hlast : ((i : Int) = ((i + [check].length : Nat) : Int) - 1) := by
        simp only [List.length_singleton]; push_cast; ring
      rw [childRows_single, appendChecks, if_pos hlast, appendEach]
      rcases Append renderer _ with ⟨r, _ | err⟩ <;> rfl
    | cons k ks =>
      have hne : ¬ ((i : Int) = ((i + (check :: k :: ks).length : Nat) : Int) - 1) := by
        simp only [List.length_cons]; push_cast; omega
      rw [childRows_cons_cons, appendChecks, if_neg hne, appendEach]
      rcases Append renderer (rowOf ("├── " ++ check.Name) check.Status check.Message)
        with ⟨r, _ | err⟩
      · have h := ih (i + 1) r
        have e : i + 1 + (k :: ks).length = i + (check :: k :: ks).length := by
          simp only [List.length_cons]; omega
        rw [e] at h
        exact h
      · rfl

theorem appendEach_recordRow (rows0 rows : List Value) :
    appendEach recordRow rows0 rows = (rows0 ++ rows, none) := by
  induction rows generalizing rows0 with
  | nil => simp [appendEach]
  | cons row rest ih => simp [appendEach, recordRow, ih]

theorem childRows_length (l : List Check) : (childRows l).length = l.length := by
  induction l with
  | nil => rfl
  | cons k rest ih =>
    cases rest with
    | nil => rfl
    | cons k2 ks => rw [childRows_cons_cons, List.length_cons, ih]; rfl

theorem childRows_getElem? (l : List Check) (i : Nat) :
    (childRows l)[i]? =
      (l[i]?).map (fun k =>
        rowOf ((if i + 1 = l.length then "└── " else "├── ") ++ k.Name) k.Status k.Message) := by
  induction l generalizing i with
  | nil => simp [childRows]
  | cons k rest ih =>
    cases rest with
    | nil =>
      cases i with
      | zero => simp [childRows_single]
      | succ j => simp [childRows_single]
    | cons k2 ks =>
      rw [childRows_cons_cons]
      cases i with
      | zero => simp
      | succ j =>
        have := ih j
        simp only [List.length_cons] at this
        simp only [List.getElem?_cons_succ, List.length_cons, add_left_inj]
        simpa using this

/-- C2: for every category with n checks, `appendCategoryWithTree` appends, through
whatever `Append` it is given and up to the first failure of `Append`, the rows the
specification describes; with a renderer that records its rows these are exactly
n+1 rows: the parent row `[name, status, message]` first, then the check of index
`i` as `[connector ++ name, status, message]`, the connector being the terminating
one for the last check and the continuing one for the others. -/
theorem appendCategoryWithTree_rows :
    (∀ (ρ ε : Type) (Append : ρ → Value → ρ × Option ε) (renderer : ρ) (c : Category),
        appendCategoryWithTree Append renderer c = appendEach Append renderer (treeRows c)) ∧
    (∀ (rows0 : List Value) (c : Category),
        appendCategoryWithTree recordRow rows0 c = (rows0 ++ treeRows c, none)) ∧
    (∀ c : Category, (treeRows c).length = c.Checks.length + 1) ∧
    (∀ c : Category, (treeRows c)[0]? = some (rowOf c.Name c.Status c.Message)) ∧
    (∀ (c : Category) (i : Nat),
        (treeRows c)[i + 1]? = (c.Checks[i]?).map (fun k =>
          rowOf ((if i + 1 = c.Checks.length then "└── " else "├── ") ++ k.Name)
            k.Status k.Message)) := by
  have key : ∀ (ρ ε : Type) (Append : ρ → Value → ρ × Option ε) (renderer : ρ) (c : Category),
      appendCategoryWithTree Append renderer c = appendEach Append renderer (treeRows c) := by
    intro ρ ε Append renderer c
    simp only [appendCategoryWithTree, treeRows, appendEach]
    rcases Append renderer (rowOf c.Name c.Status c.Message) with ⟨r, _ | err⟩
    · have := appendChecks_eq_appendEach Append c.Checks 0 r
      simp only [zero_add] at this
      exact this
    · rfl
  refine ⟨key, fun rows0 c => ?_, fun c => ?_, fun c => ?_, fun c i => ?_⟩
  · rw [key, appendEach_recordRow]
  · simp [treeRows, childRows_length]
  · simp [treeRows]
  · simp only [treeRows, List.getElem?_cons_succ]
    exact childRows_getElem? c.Checks i

/-! ### The STATUS formatter -/

/-- C3: for every status string s, the STATUS formatter of `PrintResults` returns
the green variant of s when s is the OK status, the yellow variant when s is the
Warning status, the red variant when s is the Error status, and s itself for every
other string (the three status constants being distinct, as Go requires of the
cases of one switch). -/
theorem statusFormatter_string (green yellow red : String → String)
    (StatusOK StatusWarning StatusError : String)
    (h1 : StatusOK ≠ StatusWarning) (h2 : StatusOK ≠ StatusError)
    (h3 : StatusWarning ≠ StatusError) (s : String) :
    statusFormatter green yellow red StatusOK StatusWarning StatusError (.str s) =
      .ok (.str (if s = StatusOK then green s
                 else if s = StatusWarning then yellow s
                 else if s = StatusError then red s
                 else s)) ∧
    (s = StatusOK →
      statusFormatter green yellow red StatusOK StatusWarning StatusError (.str s) =
        .ok (.str (green s))) ∧
    (s = StatusWarning →
      statusFormatter green yellow red StatusOK StatusWarning StatusError (.str s) =
        .ok (.str (yellow s))) ∧
    (s = StatusError →
      statusFormatter green yellow red StatusOK StatusWarning StatusError (.str s) =
        .ok (.str (red s))) ∧
    (s ≠ StatusOK → s ≠ StatusWarning → s ≠ StatusError →
      statusFormatter green yellow red StatusOK StatusWarning StatusError (.str s) =
        .ok (.str s)) := by
  refine ⟨?_, ?_, ?_, ?_, ?_⟩
  · simp only [statusFormatter]; split_ifs <;> rfl
  · intro h; subst h; simp [statusFormatter]
  · intro h; subst h; simp [statusFormatter, Ne.symm h1]
  · intro h; subst h; simp [statusFormatter, Ne.symm h2, Ne.symm h3]
  · intro a b c; simp [statusFormatter, a, b, c]

theorem statusFormatter_string_witness :
    ("OK" ≠ "WARNING" ∧ "OK" ≠ "ERROR" ∧ "WARNING" ≠ "ERROR") ∧
    statusFormatter (fun s => "<g>" ++ s) (fun s => "<y>" ++ s) (fun s => "<r>" ++ s)
        "OK" "WARNING" "ERROR" (.str "WARNING") = .ok (.str "<y>WARNING") := by
  refine ⟨by decide, ?_⟩
  have h := (statusFormatter_string (fun s => "<g>" ++ s) (fun s => "<y>" ++ s)
    (fun s => "<r>" ++ s) "OK" "WARNING" "ERROR" (by decide) (by decide) (by decide)
    "WARNING").2.2.1 rfl
  exact h

/-! ### The parser on the queries of the repository -/

theorem parseFragment_typeQuery (defined : String → Bool) :
    parseFragment defined typeQuery = some (.index .identity "kind") := by
  rfl

theorem parseFragment_readyQuery (defined : String → Bool) :
    parseFragment defined readyQuery =
      some (.pipe (.iterTry (.index (.index .identity "status") "conditions"))
        (.pipe (.select (.eqStr (.index .identity "type") "Ready"))
          (.alt (.index .identity "status") (.str "Unknown")))) := by
  rfl

theorem parseFragment_locationQuery (defined : String → Bool) :
    parseFragment defined locationQuery =
      some (.alt (.index .identity "location") (.str "Unknown")) := by
  rfl

/-! ### Lemmas on normalisation and on streams -/

mutual
theorem normalizeValue_of_isJSON : ∀ v : Value, isJSON v = true → normalizeValue v = .ok v
  | .nil, _ => rfl
  | .bool _, _ => rfl
  | .int _, h => by simp [isJSON] at h
  | .float _, _ => rfl
  | .str _, _ => rfl
  | .slice xs, h => by
    rw [normalizeValue, normalizeList_of_isJSON xs (by simpa [isJSON] using h)]
  | .map kvs, h => by
    rw [normalizeValue, normalizeFields_of_isJSON kvs (by simpa [isJSON] using h)]
  | .struct _, h => by simp [isJSON] at h
  | .func _, h => by simp [isJSON] at h
theorem normalizeList_of_isJSON :
    ∀ xs : List Value, isJSONList xs = true → normalizeList xs = .ok xs
  | [], _ => rfl
  | x :: xs, h => by
    simp only [isJSONList, Bool.and_eq_true] at h
    rw [normalizeList, normalizeValue_of_isJSON x h.1, normalizeList_of_isJSON xs h.2]
theorem normalizeFields_of_isJSON :
    ∀ kvs : List (String × Value), isJSONFields kvs = true → normalizeFields kvs = .ok kvs
  | [], _ => rfl
  | (k, x) :: xs, h => by
    simp only [isJSONFields, Bool.and_eq_true] at h
    rw [normalizeFields, normalizeValue_of_isJSON x h.1, normalizeFields_of_isJSON xs h.2]
end

theorem Stream.andThen_map_ok (xs : List Value) (t : Stream) :
    Stream.andThen (xs.map .ok) t = xs.map .ok ++ t := by
  induction xs with
  | nil => rfl
  | cons x rest ih => simp [Stream.andThen, ih]

theorem Stream.suppress_map_ok (xs : List Value) :
    Stream.suppress (xs.map .ok) = xs := by
  induction xs with
  | nil => rfl
  | cons x rest ih => simp [Stream.suppress, ih]

theorem Stream.bind_skip (pre : List Value) (rest : Stream) (g : Value → Stream)
    (h : ∀ p ∈ pre, g p = []) :
    Stream.bind (pre.map .ok ++ rest) g = Stream.bind rest g := by
  induction pre with
  | nil => rfl
  | cons p ps ih =>
    have hp : g p = [] := h p (List.mem_cons_self p ps)
    simp only [List.map_cons, List.cons_append, Stream.bind, hp, Stream.andThen]
    exact ih (fun q hq => h q (List.mem_cons_of_mem p hq))

/-! ### `JQFormatter` -/

theorem JQFormatter_fragment (defined : String → Bool) (errText : JqError → String)
    (syntaxText : String → String)
    (query : String) (q : Query) (h : parseFragment defined query = some q) :
    JQFormatter (gojqFragment defined errText syntaxText) query =
      .ok (jqApply ((gojqFragment defined errText syntaxText).Run q)) := by
  simp [JQFormatter, gojqFragment, h]

theorem gojqFragment_Run (defined : String → Bool) (errText : JqError → String)
    (syntaxText : String → String) (q : Query) (v : Value) (h : undefinedCall q = none) :
    (gojqFragment defined errText syntaxText).Run q v =
      (eval q v).map (fun item =>
        match item with
        | .ok r => .ok r
        | .error e => .error (errText e)) := by
  simp [gojqFragment, queryRun, compileFragment, h]

theorem eval_field (name : String) (kvs : List (String × Value)) :
    eval (.index .identity name) (.map kvs) = [.ok ((lookupKey name kvs).getD .nil)] := by
  simp [eval, Stream.bind, Stream.andThen, indexField]

theorem eval_no_conditions (kvs : List (String × Value)) (r : Query)
    (h : lookupKey "status" kvs = none ∨ lookupKey "status" kvs = some .nil ∨
      ∃ st, lookupKey "status" kvs = some (.map st) ∧
        (lookupKey "conditions" st = none ∨ lookupKey "conditions" st = some .nil)) :
    eval (.pipe (.iterTry (.index (.index .identity "status") "conditions")) r) (.map kvs) =
      [] := by
  have hnil : ∀ v : Value, v = .nil →
      Stream.bind [indexField "conditions" v]
        (fun x => (Stream.suppress (iterate x)).map .ok) = [] := by
    intro v hv
    subst hv
    rfl
  rw [eval, eval, eval, eval_field]
  rcases h with h | h | ⟨st, h, hc⟩
  · rw [h]; rfl
  · rw [h]; rfl
  · rw [h]
    rcases hc with hc | hc <;>
      simp [Stream.bind, Stream.andThen, indexField, hc, iterate, Stream.suppress]

/-- C4 (what the code does): for every record whose JSON form has no status, a null
status, or a status object without conditions, the READY query of the list command
yields no result, so the formatter returns nil and the cell is empty, not "Unknown":
the row of the Dashboard with an empty status, and of the Dashboard without status,
under the TYPE and READY columns is "Dashboard", "". -/
theorem readyQuery_no_conditions (defined : String → Bool) (errText : JqError → String)
    (syntaxText : String → String)
    (showComposite : Value → String) :
    ∃ fType fReady,
      JQFormatter (gojqFragment defined errText syntaxText) typeQuery = .ok fType ∧
      JQFormatter (gojqFragment defined errText syntaxText) readyQuery = .ok fReady ∧
      (∀ (record : Value) (kvs : List (String × Value)),
        normalizeValue record = .ok (.map kvs) →
        (lookupKey "status" kvs = none ∨ lookupKey "status" kvs = some .nil ∨
          ∃ st, lookupKey "status" kvs = some (.map st) ∧
            (lookupKey "conditions" st = none ∨ lookupKey "conditions" st = some .nil)) →
        fReady record = .ok .nil) ∧
      fReady dashboardNoConditions = .ok .nil ∧ fReady dashboardNoStatus = .ok .nil ∧
      columnsRow showComposite [fType, fReady] dashboardNoConditions =
        .ok ["Dashboard", ""] ∧
      columnsRow showComposite [fType, fReady] dashboardNoStatus = .ok ["Dashboard", ""] := by
  refine ⟨_, _,
    JQFormatter_fragment defined errText syntaxText _ _ (parseFragment_typeQuery defined),
    JQFormatter_fragment defined errText syntaxText _ _ (parseFragment_readyQuery defined),
    fun record kvs hn h => ?_, rfl, rfl, rfl, rfl⟩
  simp only [jqApply, hn, gojqFragment_Run, undefinedCall, eval_no_conditions kvs _ h]
  rfl

theorem equalsStr_eq_true (s : String) (x : Value) :
    equalsStr s x = true ↔ x = .str s := by
  cases x <;> simp [equalsStr]

theorem eval_select_type_other (fs : List (String × Value)) (r : Query)
    (h : lookupKey "type" fs ≠ some (.str "Ready")) :
    eval (.pipe (.select (.eqStr (.index .identity "type") "Ready")) r) (.map fs) = [] := by
  have hb : equalsStr "Ready" ((lookupKey "type" fs).getD .nil) = false := by
    rw [Bool.eq_false_iff]
    intro hc
    rw [equalsStr_eq_true] at hc
    cases hl : lookupKey "type" fs with
    | none => rw [hl] at hc; cases hc
    | some x => rw [hl] at hc h; simp only [Option.getD_some] at hc; exact h (by rw [hc])
  rw [eval, eval, eval, eval_field]
  simp [Stream.bind, Stream.andThen, hb, truthy]

theorem eval_select_type_ready (c : List (String × Value)) (s : String)
    (hty : lookupKey "type" c = some (.str "Ready"))
    (hs : lookupKey "status" c = some (.str s)) :
    eval (.pipe (.select (.eqStr (.index .identity "type") "Ready"))
        (.alt (.index .identity "status") (.str "Unknown"))) (.map c) = [.ok (.str s)] := by
  rw [eval, eval, eval, eval_field, hty]
  simp [Stream.bind, Stream.andThen, equalsStr, truthy, eval, indexField, hs,
    Stream.alternative]

theorem eval_conditions (kvs st : List (String × Value)) (xs : List Value)
    (hst : lookupKey "status" kvs = some (.map st))
    (hc : lookupKey "conditions" st = some (.slice xs)) :
    eval (.iterTry (.index (.index .identity "status") "conditions")) (.map kvs) =
      xs.map .ok := by
  rw [eval, eval, eval_field, hst]
  simp [Stream.bind, Stream.andThen, indexField, hc, iterate, Stream.suppress_map_ok,
    Stream.andThen_map_ok]

/-- C5: for every record whose JSON form has a string `k` under `.kind` and, under
`.status.conditions`, an array in which the first element of type "Ready" is an
object with the status string `s` (the elements before it being objects of another
type), the TYPE query of the list command yields `k` and its READY query yields `s`:
the row of the record under these two columns is `[k, s]`. -/
theorem listColumns_ready_row (defined : String → Bool) (errText : JqError → String)
    (syntaxText : String → String)
    (showComposite : Value → String) (record : Value) (kvs st c : List (String × Value))
    (pre post : List Value) (k s : String)
    (hn : normalizeValue record = .ok (.map kvs))
    (hk : lookupKey "kind" kvs = some (.str k))
    (hst : lookupKey "status" kvs = some (.map st))
    (hc : lookupKey "conditions" st = some (.slice (pre ++ .map c :: post)))
    (hpre : ∀ p ∈ pre, ∃ fs, p = .map fs ∧ lookupKey "type" fs ≠ some (.str "Ready"))
    (hty : lookupKey "type" c = some (.str "Ready"))
    (hs : lookupKey "status" c = some (.str s)) :
    ∃ fType fReady,
      JQFormatter (gojqFragment defined errText syntaxText) typeQuery = .ok fType ∧
      JQFormatter (gojqFragment defined errText syntaxText) readyQuery = .ok fReady ∧
      fType record = .ok (.str k) ∧ fReady record = .ok (.str s) ∧
      columnsRow showComposite [fType, fReady] record = .ok [k, s] := by
  have hT : jqApply ((gojqFragment defined errText syntaxText).Run
      (.index .identity "kind")) record = .ok (.str k) := by
    simp only [jqApply, hn, gojqFragment_Run, undefinedCall, eval_field, hk]
    rfl
  have hR : jqApply ((gojqFragment defined errText syntaxText).Run
      (.pipe (.iterTry (.index (.index .identity "status") "conditions"))
        (.pipe (.select (.eqStr (.index .identity "type") "Ready"))
          (.alt (.index .identity "status") (.str "Unknown"))))) record = .ok (.str s) := by
    have hskip : ∀ p ∈ pre,
        (fun x => eval (.pipe (.select (.eqStr (.index .identity "type") "Ready"))
          (.alt (.index .identity "status") (.str "Unknown"))) x) p = [] := by
      intro p hp
      obtain ⟨fs, rfl, hne⟩ := hpre p hp
      exact eval_select_type_other fs _ hne
    simp only [jqApply, hn, gojqFragment_Run, undefinedCall]
    rw [eval, eval_conditions kvs st _ hst hc, List.map_append, Stream.bind_skip _ _ _ hskip,
      List.map_cons, Stream.bind, eval_select_type_ready c s hty hs]
    rfl
  refine ⟨_, _,
    JQFormatter_fragment defined errText syntaxText _ _ (parseFragment_typeQuery defined),
    JQFormatter_fragment defined errText syntaxText _ _ (parseFragment_readyQuery defined),
    hT, hR, ?_⟩
  simp only [columnsRow, hT, hR, displayCell]

theorem listColumns_ready_row_witness :
    normalizeValue dashboardReady = .ok dashboardReady ∧
    ∃ fType fReady,
      JQFormatter (gojqFragment someDefined briefErrText id) typeQuery = .ok fType ∧
      JQFormatter (gojqFragment someDefined briefErrText id) readyQuery = .ok fReady ∧
      fType dashboardReady = .ok (.str "Dashboard") ∧
      fReady dashboardReady = .ok (.str "True") ∧
      columnsRow (fun _ => "") [fType, fReady] dashboardReady = .ok ["Dashboard", "True"] :=
  ⟨rfl, listColumns_ready_row someDefined briefErrText id (fun _ => "") dashboardReady
    [("kind", .str "Dashboard"),
      ("status", .map [("conditions",
        .slice [.map [("type", .str "Ready"), ("status", .str "True")]])])]
    [("conditions", .slice [.map [("type", .str "Ready"), ("status", .str "True")]])]
    [("type", .str "Ready"), ("status", .str "True")] [] [] "Dashboard" "True"
    rfl rfl rfl rfl (fun p hp => by cases hp) rfl rfl⟩

theorem truthy_eq_false_iff (v : Value) :
    truthy v = false ↔ v = .nil ∨ v = .bool false := by
  cases v with
  | bool b => cases b <;> simp [truthy]
  | _ => simp [truthy]

theorem eval_locationQuery (kvs : List (String × Value)) :
    eval (.alt (.index .identity "location") (.str "Unknown")) (.map kvs) =
      [.ok (if truthy ((lookupKey "location" kvs).getD .nil) = true
        then (lookupKey "location" kvs).getD .nil else .str "Unknown")] := by
  rw [eval, eval_field]
  by_cases h : truthy ((lookupKey "location" kvs).getD .nil) = true
  · simp [Stream.alternative, h]
  · simp [Stream.alternative, h, eval]

/-- C9: for every JSON object m, the formatter of the query `.location // "Unknown"`
returns the value under the key "location" of m when the key is present with a
value that is neither null nor false, and the string "Unknown" otherwise (the key is
missing, or its value is null or false); on the object with "NYC" under "location" it
returns "NYC". -/
theorem locationQuery_default (defined : String → Bool) (errText : JqError → String)
    (syntaxText : String → String) :
    ∃ f, JQFormatter (gojqFragment defined errText syntaxText) locationQuery = .ok f ∧
      (∀ (kvs : List (String × Value)) (v : Value), isJSON (.map kvs) = true →
        lookupKey "location" kvs = some v → v ≠ .nil → v ≠ .bool false →
        f (.map kvs) = .ok v) ∧
      (∀ kvs : List (String × Value), isJSON (.map kvs) = true →
        (lookupKey "location" kvs = none ∨ lookupKey "location" kvs = some .nil ∨
          lookupKey "location" kvs = some (.bool false)) →
        f (.map kvs) = .ok (.str "Unknown")) ∧
      f (.map [("location", .str "NYC")]) = .ok (.str "NYC") := by
  refine ⟨_,
    JQFormatter_fragment defined errText syntaxText _ _ (parseFragment_locationQuery defined),
    fun kvs v hj hl h1 h2 => ?_, fun kvs hj hl => ?_, rfl⟩
  · have ht : truthy v = true := by
      cases ht : truthy v with
      | true => rfl
      | false => rcases (truthy_eq_false_iff v).1 ht with h | h <;> contradiction
    simp only [jqApply, normalizeValue_of_isJSON _ hj, gojqFragment_Run, undefinedCall,
      eval_locationQuery, hl,
      Option.getD_some, ht]
    rfl
  · have ht : truthy ((lookupKey "location" kvs).getD .nil) = false := by
      rcases hl with h | h | h <;> rw [h] <;> rfl
    simp only [jqApply, normalizeValue_of_isJSON _ hj, gojqFragment_Run, undefinedCall,
      eval_locationQuery, ht]
    rfl

theorem locationQuery_default_witness :
    ∃ f, JQFormatter (gojqFragment someDefined briefErrText id) locationQuery = .ok f ∧
      f (.map [("name", .str "Alice"), ("location", .float 7)]) = .ok (.float 7) ∧
      f (.map [("location", .bool false)]) = .ok (.str "Unknown") ∧
      f (.map [("name", .str "Alice")]) = .ok (.str "Unknown") := by
  obtain ⟨f, hf, h1, h2, _⟩ := locationQuery_default someDefined briefErrText id
  exact ⟨f, hf, h1 _ (.float 7) rfl rfl (by simp) (by simp),
    h2 [("location", .bool false)] rfl (Or.inr (Or.inr rfl)),
    h2 [("name", .str "Alice")] rfl (Or.inl rfl)⟩

/-- C6: for every formatter that `JQFormatter` constructed and every value that
normalises to JSON, the formatter does not panic and returns nil when the compiled
query yields nothing, the text of the error when the first item is an error, and the
first result otherwise, whatever follows it. -/
theorem jqFormatter_first_item {Q : Type} (lib : Gojq Q) (query : String)
    (f : ColumnFormatter) (value normalizedValue : Value)
    (hf : JQFormatter lib query = .ok f)
    (hn : normalizeValue value = .ok normalizedValue) :
    ∃ q, lib.Parse query = .ok q ∧
      f value = .ok (match lib.Run q normalizedValue with
        | [] => .nil
        | .error err :: _ => .str err
        | .ok result :: _ => result) := by
  unfold JQFormatter at hf
  cases hp : lib.Parse query with
  | error err => rw [hp] at hf; cases hf
  | ok q =>
    rw [hp] at hf
    cases hf
    refine ⟨q, rfl, ?_⟩
    simp only [jqApply, hn]
    cases hr : lib.Run q normalizedValue with
    | nil => rfl
    | cons item rest => cases item <;> rfl

theorem jqFormatter_first_item_witness :
    JQFormatter (gojqFragment someDefined briefErrText id) ".kind.name" =
        .ok (jqApply ((gojqFragment someDefined briefErrText id).Run
          (.index (.index .identity "kind") "name"))) ∧
      normalizeValue dashboardNoStatus = .ok dashboardNoStatus ∧
      ∃ q, (gojqFragment someDefined briefErrText id).Parse ".kind.name" = .ok q ∧
        jqApply ((gojqFragment someDefined briefErrText id).Run
            (.index (.index .identity "kind") "name")) dashboardNoStatus =
          .ok (match (gojqFragment someDefined briefErrText id).Run q dashboardNoStatus with
            | [] => .nil
            | .error err :: _ => .str err
            | .ok result :: _ => result) ∧
        jqApply ((gojqFragment someDefined briefErrText id).Run
            (.index (.index .identity "kind") "name")) dashboardNoStatus =
          .ok (.str (briefErrText (.expectedObject (.str "Dashboard")))) := by
  refine ⟨rfl, rfl, ?_⟩
  obtain ⟨q, hq, hv⟩ := jqFormatter_first_item (gojqFragment someDefined briefErrText id) ".kind.name" _
    dashboardNoStatus dashboardNoStatus rfl rfl
  exact ⟨q, hq, hv, rfl⟩

theorem parseFragment_undefined_call (defined : String → Bool) (h : defined "foo" = false) :
    parseFragment defined "foo" = some (.call "foo") := by
  have hl : lex ("foo".length + 1) "foo".toList = some [Token.ident "foo"] := by rfl
  unfold parseFragment
  rw [hl]
  simp [parsePipe, parseAlt, parseCmp, parseTerm, parseSuffixes, isKeyword, h]

/-- C7 (what the code does): `JQFormatter` only parses the query at construction, and
gojq compiles a query at every `Run`.  For every gojq, a query text that parses and
does not compile makes `JQFormatter` return a formatter, without a panic, and every
application of that formatter to a value that normalises returns the text of the
compilation error: the failure is reported at render time, not at construction.  So
it is for the query `foo`, the call of a function that gojq does not define, on every
value and on the Dashboard without status. -/
theorem JQFormatter_compile_failure_at_render :
    (∀ (Q C : Type) (Parse : String → Except String Q) (Compile : Q → Except String C)
        (Execute : C → Value → List (Except String Value)) (query : String) (q : Q)
        (err : String),
      Parse query = .ok q → Compile q = .error err →
      ∃ f, JQFormatter (Gojq.mk Parse (queryRun Compile Execute)) query = .ok f ∧
        ∀ value normalizedValue : Value, normalizeValue value = .ok normalizedValue →
          f value = .ok (.str err)) ∧
    (∀ (defined : String → Bool) (errText : JqError → String) (syntaxText : String → String),
      defined "foo" = false →
      ∃ f, JQFormatter (gojqFragment defined errText syntaxText) "foo" = .ok f ∧
        (∀ value normalizedValue : Value, normalizeValue value = .ok normalizedValue →
          f value = .ok (.str (errText (.functionNotDefined "foo")))) ∧
        f dashboardNoStatus = .ok (.str (errText (.functionNotDefined "foo")))) := by
  refine ⟨fun Q C Parse Compile Execute query q err hp hc => ?_,
    fun defined errText syntaxText h => ?_⟩
  · refine ⟨jqApply (queryRun Compile Execute q), ?_, fun value nv hn => ?_⟩
    · simp only [JQFormatter, hp]
    · simp only [jqApply, hn, queryRun, hc]
  · refine ⟨_, JQFormatter_fragment defined errText syntaxText _ _
      (parseFragment_undefined_call defined h), fun value nv hn => ?_, rfl⟩
    simp only [jqApply, hn]
    rfl

theorem JQFormatter_compile_failure_at_render_witness :
    someDefined "foo" = false ∧
    ∃ f, JQFormatter (gojqFragment someDefined briefErrText id) "foo" = .ok f ∧
      f dashboardNoStatus = .ok (.str "function not defined: foo/0") ∧
      f (.str "Alice") = .ok (.str "function not defined: foo/0") := by
  obtain ⟨f, hf, hall, hv⟩ :=
    JQFormatter_compile_failure_at_render.2 someDefined briefErrText id (by decide)
  exact ⟨by decide, f, hf, hv, hall (.str "Alice") (.str "Alice") rfl⟩

/-! ### The renderer -/

theorem findField_congr (ToUpper : String → String) (h1 h2 : String)
    (h : ToUpper h1 = ToUpper h2) (fields : List (String × Value)) :
    findField ToUpper h1 fields = findField ToUpper h2 fields := by
  induction fields with
  | nil => rfl
  | cons f rest ih =>
    obtain ⟨name, v⟩ := f
    simp only [findField, h, ih]

theorem findField_first (ToUpper : String → String) (header name : String) (v : Value)
    (pre post : List (String × Value)) (hname : ToUpper name = ToUpper header)
    (hpre : ∀ p ∈ pre, ToUpper p.1 ≠ ToUpper header) :
    findField ToUpper header (pre ++ (name, v) :: post) = some v := by
  induction pre with
  | nil => simp [findField, hname]
  | cons p ps ih =>
    obtain ⟨n, w⟩ := p
    have hn : ToUpper n ≠ ToUpper header := hpre (n, w) (List.mem_cons_self _ _)
    simp only [List.cons_append, findField, hn, ↓reduceIte]
    exact ih (fun q hq => hpre q (List.mem_cons_of_mem _ hq))

/-- C8 (on the renderer modelled from the spec): for every typed record, two headers
that are equal ignoring case yield the same value and the same rendered cell, and a
header that equals a field name ignoring case yields the value of that field (the
first such field); the headers "Name", "name" and "NAME" all yield the cell "Alice"
from a record with the field Name, and appending the record with Name "Alice" and Age
30 under headers that differ from the field names in case renders the row
"Alice", "30". -/
theorem Append_case_insensitive :
    (∀ (ToUpper : String → String) (fields : List (String × Value)) (h1 h2 : String)
        (i j : Nat), ToUpper h1 = ToUpper h2 →
        extractCell ToUpper h1 i (.struct fields) = extractCell ToUpper h2 j (.struct fields)) ∧
    (∀ (ToUpper : String → String) (showComposite : Value → String) (r : Renderer)
        (fields : List (String × Value)) (h1 h2 : String) (i j : Nat),
        ToUpper h1 = ToUpper h2 →
        renderCell ToUpper showComposite r h1 i (.struct fields) =
          renderCell ToUpper showComposite r h2 j (.struct fields)) ∧
    (∀ (ToUpper : String → String) (header name : String) (v : Value)
        (pre post : List (String × Value)) (i : Nat),
        ToUpper name = ToUpper header → (∀ p ∈ pre, ToUpper p.1 ≠ ToUpper header) →
        extractCell ToUpper header i (.struct (pre ++ (name, v) :: post)) = v) ∧
    (∀ showComposite : Value → String,
      (Renderer.Append upperASCII showComposite (rendererWithHeaders ["Name"]) alice).map
          Renderer.rows = .ok [["Alice"]] ∧
      (Renderer.Append upperASCII showComposite (rendererWithHeaders ["name"]) alice).map
          Renderer.rows = .ok [["Alice"]] ∧
      (Renderer.Append upperASCII showComposite (rendererWithHeaders ["NAME"]) alice).map
          Renderer.rows = .ok [["Alice"]] ∧
      (Renderer.Append upperASCII showComposite (rendererWithHeaders ["name", "age"]) alice).map
          Renderer.rows = .ok [["Alice", "30"]] ∧
      (Renderer.Append upperASCII showComposite (rendererWithHeaders ["name", "AGE"]) alice).map
          Renderer.rows = .ok [["Alice", "30"]]) := by
  refine ⟨fun ToUpper fields h1 h2 i j h => ?_, fun ToUpper sc r fields h1 h2 i j h => ?_,
    fun ToUpper header name v pre post i hname hpre => ?_,
    fun sc => ⟨rfl, rfl, rfl, rfl, rfl⟩⟩
  · simp only [extractCell, findField_congr ToUpper h1 h2 h]
  · simp only [renderCell, extractCell, findField_congr ToUpper h1 h2 h, h]
  · simp only [extractCell, findField_first ToUpper header name v pre post hname hpre,
      Option.getD_some]

theorem Append_case_insensitive_witness :
    upperASCII "NAME" = upperASCII "name" ∧
    extractCell upperASCII "NAME" 0 alice = extractCell upperASCII "name" 0 alice ∧
    extractCell upperASCII "age" 1 alice = .int 30 :=
  ⟨by decide, Append_case_insensitive.1 upperASCII _ "NAME" "name" 0 0 (by decide),
    Append_case_insensitive.2.2.1 upperASCII "age" "Age" (.int 30) [("Name", .str "Alice")]
      [("Status", .str "")] 1 (by decide) (by decide)⟩

/-! ### The matching step of `GetComponentByType` -/

theorem matchLoop_eq_filter (ToLower : String → String) (lowerTypeName : String)
    (rs exactMatches partialMatches : List APIResource) :
    matchLoop ToLower lowerTypeName rs exactMatches partialMatches =
      (exactMatches ++ rs.filter (fun x =>
          !isSubresource x && decide (ToLower x.Name = lowerTypeName)),
        partialMatches ++ rs.filter (fun x =>
          !isSubresource x && !decide (ToLower x.Name = lowerTypeName) &&
            (stringsContains (ToLower x.Name) lowerTypeName ||
              stringsContains lowerTypeName (ToLower x.Name)))) := by
  induction rs generalizing exactMatches partialMatches with
  | nil => simp [matchLoop]
  | cons r rest ih =>
    cases ha : stringsContains r.Name "/" <;> by_cases hb : r.Kind = "" <;>
      by_cases hex : ToLower r.Name = lowerTypeName <;>
      cases hp1 : stringsContains (ToLower r.Name) lowerTypeName <;>
      cases hp2 : stringsContains lowerTypeName (ToLower r.Name) <;>
      simp [matchLoop, isSubresource, ih, ha, hb, hex, hp1, hp2, List.filter_cons]

/-- C10: for every list of discovered resources and every type name, if exactly one
resource that is not a subresource has a name equal to the type name ignoring case,
the matching step of `GetComponentByType` selects that resource, whatever other
resources partially match, and `GetComponentByType` goes on to list the instances
of that resource. -/
theorem matchResource_single_exact (ToLower : String → String) (rs : List APIResource)
    (typeName : String) (r : APIResource)
    (h : rs.filter (fun x =>
      !isSubresource x && decide (ToLower x.Name = ToLower typeName)) = [r]) :
    matchResource ToLower rs typeName = .ok r ∧
    ∀ list : String → Except String (List Value),
      GetComponentByType ToLower (.ok rs) list typeName =
        match list r.Name with
        | .error err => .error (.listFailed r.Name err)
        | .ok [] => .error (.noInstances r.Name)
        | .ok (item :: _) => .ok item := by
  have hm : matchResource ToLower rs typeName = .ok r := by
    unfold matchResource
    rw [matchLoop_eq_filter, h]
    rfl
  refine ⟨hm, fun list => ?_⟩
  unfold GetComponentByType
  dsimp only
  rw [hm]

theorem matchResource_single_exact_witness :
    [APIResource.mk "kserves" "Kserves", ⟨"kserve", "Kserve"⟩, ⟨"kserve/status", ""⟩,
        ⟨"dashboards", "Dashboard"⟩].filter (fun x =>
      !isSubresource x && decide (lowerASCII x.Name = lowerASCII "KServe")) =
      [⟨"kserve", "Kserve"⟩] ∧
    matchResource lowerASCII
      [⟨"kserves", "Kserves"⟩, ⟨"kserve", "Kserve"⟩, ⟨"kserve/status", ""⟩,
        ⟨"dashboards", "Dashboard"⟩] "KServe" = .ok ⟨"kserve", "Kserve"⟩ :=
  ⟨by decide,
    (matchResource_single_exact lowerASCII _ "KServe" ⟨"kserve", "Kserve"⟩ (by decide)).1⟩

/-! ### The output format -/

/-- C11: for every string v and every output format f, `f.Set(v)` succeeds if and
only if v is "json" or "table"; when it succeeds `f.String()` afterwards returns v;
when it fails it returns an error and leaves f unchanged. -/
theorem OutputFormat_Set (f : OutputFormat) (v : String) :
    ((f.Set v).2 = none ↔ v = "json" ∨ v = "table") ∧
    ((f.Set v).2 = none → (f.Set v).1.String = v) ∧
    ((f.Set v).2 ≠ none →
      (f.Set v).2 = some ("invalid format: " ++ v ++ " (must be 'table' or 'json')") ∧
        (f.Set v).1 = f) := by
  have hs : "invalid format: " ++ v ++ " (must be '" ++ Table.value ++ "' or '" ++
      JSON.value ++ "')" = "invalid format: " ++ v ++ " (must be 'table' or 'json')" := by
    simp only [String.append_assoc]
    rfl
  by_cases h : v = "json" ∨ v = "table"
  · have e : f.Set v = (⟨v⟩, none) := if_pos h
    rw [e]
    exact ⟨⟨fun _ => h, fun _ => rfl⟩, fun _ => rfl, fun hne => absurd rfl hne⟩
  · have e : f.Set v =
        (f, some ("invalid format: " ++ v ++ " (must be 'table' or 'json')")) := by
      rw [← hs]
      exact if_neg h
    rw [e]
    refine ⟨⟨fun hn => ?_, fun hv => absurd hv h⟩, fun hn => ?_, fun _ => ⟨rfl, rfl⟩⟩
    · cases hn
    · cases hn

theorem OutputFormat_Set_witness :
    (Table.Set "json").2 = none ∧ (Table.Set "json").1.String = "json" ∧
    (Table.Set "yaml").2 ≠ none ∧ (Table.Set "yaml").1 = Table :=
  ⟨by decide, (OutputFormat_Set Table "json").2.1 (by decide), by decide,
    ((OutputFormat_Set Table "yaml").2.2 (by decide)).2⟩

/-! ### The STATUS formatter on values that are not strings -/

/-- C12 (as stated, refuted): on the integer 30, which is not a string, the STATUS
formatter returns no value: its type assertion panics. -/
theorem statusFormatter_panics_on_int :
    ¬ ∃ r, statusFormatter (fun s => s) (fun s => s) (fun s => s) "OK" "WARNING" "ERROR"
      (.int 30) = .ok r := by
  rintro ⟨r, h⟩
  cases h

/-- C12 (amended): the STATUS formatter is total on strings, and strings are what
`PrintResults` gives it: on every string it returns a string, the STATUS cell of
every row that `appendCategoryWithTree` appends is a string, and on a value that is
not a string the formatter panics. -/
theorem statusFormatter_total_on_strings (green yellow red : String → String)
    (StatusOK StatusWarning StatusError : String) :
    (∀ s : String, ∃ out : String,
      statusFormatter green yellow red StatusOK StatusWarning StatusError (.str s) =
        .ok (.str out)) ∧
    (∀ (c : Category), ∀ row ∈ treeRows c, ∃ name status message : String,
      row = .slice [.str name, .str status, .str message] ∧
      ∃ out : String,
        statusFormatter green yellow red StatusOK StatusWarning StatusError (.str status) =
          .ok (.str out)) ∧
    (∀ v : Value, (∀ s : String, v ≠ .str s) →
      ∃ p : String,
        statusFormatter green yellow red StatusOK StatusWarning StatusError v = .error p) := by
  have hstr : ∀ s : String, ∃ out : String,
      statusFormatter green yellow red StatusOK StatusWarning StatusError (.str s) =
        .ok (.str out) := by
    intro s
    simp only [statusFormatter]
    split_ifs <;> exact ⟨_, rfl⟩
  refine ⟨hstr, fun c row hrow => ?_, fun v hv => ?_⟩
  · have hform : ∃ name status message : String, row = rowOf name status message := by
      simp only [treeRows, childRows, List.mem_cons, List.mem_append, List.mem_map] at hrow
      rcases hrow with h | ⟨k, _, h⟩ | ⟨k, _, h⟩
      · exact ⟨_, _, _, h⟩
      · exact ⟨_, _, _, h.symm⟩
      · exact ⟨_, _, _, h.symm⟩
    obtain ⟨name, status, message, h⟩ := hform
    exact ⟨name, status, message, h, hstr status⟩
  · cases v with
    | str s => exact absurd rfl (hv s)
    | _ => exact ⟨_, rfl⟩

theorem statusFormatter_total_on_strings_witness :
    (∃ out : String,
      statusFormatter (fun s => "<g>" ++ s) (fun s => "<y>" ++ s) (fun s => "<r>" ++ s)
        "OK" "WARNING" "ERROR" (.str "unexpected") = .ok (.str out)) ∧
    (∃ p : String,
      statusFormatter (fun s => "<g>" ++ s) (fun s => "<y>" ++ s) (fun s => "<r>" ++ s)
        "OK" "WARNING" "ERROR" (.slice []) = .error p) :=
  ⟨(statusFormatter_total_on_strings _ _ _ "OK" "WARNING" "ERROR").1 "unexpected",
    (statusFormatter_total_on_strings _ _ _ "OK" "WARNING" "ERROR").2.2 (.slice [])
      (fun s h => by cases h)⟩

/-! ### The matching step without an exact match -/

theorem chooseMatch_ok_mem (typeName : String) (exactMatches partialMatches : List APIResource)
    (r : APIResource) (h : chooseMatch typeName exactMatches partialMatches = .ok r) :
    r ∈ exactMatches ∨ r ∈ partialMatches := by
  unfold chooseMatch at h
  split_ifs at h with h1 h2 h3 h4
  · left
    cases h
    exact List.get_mem _ _ _
  · right
    cases h
    exact List.get_mem _ _ _

theorem matchLoop_partial_of_no_exact (ToLower : String → String) (rs : List APIResource)
    (typeName : String)
    (hno : rs.filter (fun x =>
      !isSubresource x && decide (ToLower x.Name = ToLower typeName)) = []) :
    matchLoop ToLower (ToLower typeName) rs [] [] =
      ([], partialCandidates ToLower rs typeName) := by
  rw [matchLoop_eq_filter, hno]
  simp only [List.nil_append, partialCandidates, Prod.mk.injEq, true_and]
  apply List.filter_congr
  intro x hx
  have hx2 : (!isSubresource x && decide (ToLower x.Name = ToLower typeName)) = false := by
    by_contra hc
    have hm : x ∈ rs.filter (fun x =>
        !isSubresource x && decide (ToLower x.Name = ToLower typeName)) :=
      List.mem_filter.2 ⟨hx, by simpa using hc⟩
    rw [hno] at hm
    cases hm
  cases hs : isSubresource x with
  | true => simp
  | false =>
    rw [hs] at hx2
    simp only [Bool.not_false, Bool.true_and, decide_eq_false_iff_not] at hx2
    simp [hx2]

theorem GetComponentByType_of_match_error (ToLower : String → String)
    (rs : List APIResource) (typeName : String) (e : GetError)
    (list : String → Except String (List Value))
    (h : matchResource ToLower rs typeName = .error e) :
    GetComponentByType ToLower (.ok rs) list typeName = .error e := by
  unfold GetComponentByType
  dsimp only
  rw [h]

/-- C13: for every list of discovered resources and every type name, when no
resource that is not a subresource has a name equal to the type name ignoring case:
if exactly one such resource partially matches it is selected; if two or more do,
`GetComponentByType` fails with the ambiguity error that names them in discovery
order; if none does, it fails with the no-matching-type error.  In every case a
selected resource is one of the discovered resources and is not a subresource. -/
theorem matchResource_no_exact (ToLower : String → String) (rs : List APIResource)
    (typeName : String) :
    (rs.filter (fun x =>
        !isSubresource x && decide (ToLower x.Name = ToLower typeName)) = [] →
      (∀ r, partialCandidates ToLower rs typeName = [r] →
        matchResource ToLower rs typeName = .ok r) ∧
      (2 ≤ (partialCandidates ToLower rs typeName).length →
        matchResource ToLower rs typeName = .error (.ambiguous typeName
          ((partialCandidates ToLower rs typeName).map (fun m => m.Name))) ∧
        ∀ list : String → Except String (List Value),
          GetComponentByType ToLower (.ok rs) list typeName = .error (.ambiguous typeName
            ((partialCandidates ToLower rs typeName).map (fun m => m.Name)))) ∧
      (partialCandidates ToLower rs typeName = [] →
        matchResource ToLower rs typeName = .error (.noMatchingType typeName) ∧
        ∀ list : String → Except String (List Value),
          GetComponentByType ToLower (.ok rs) list typeName =
            .error (.noMatchingType typeName))) ∧
    (∀ r, matchResource ToLower rs typeName = .ok r → r ∈ rs ∧ isSubresource r = false) := by
  refine ⟨fun hno => ⟨fun r hr => ?_, fun h2 => ?_, fun hnil => ?_⟩, fun r hr => ?_⟩
  · unfold matchResource
    rw [matchLoop_partial_of_no_exact ToLower rs typeName hno, hr]
    rfl
  · have hm : matchResource ToLower rs typeName = .error (.ambiguous typeName
        ((partialCandidates ToLower rs typeName).map (fun m => m.Name))) := by
      unfold matchResource
      rw [matchLoop_partial_of_no_exact ToLower rs typeName hno]
      have h1 : ¬ (partialCandidates ToLower rs typeName).length = 1 := by omega
      have h3 : (partialCandidates ToLower rs typeName).length > 1 := by omega
      simp [chooseMatch, h1, h3]
    exact ⟨hm, fun list => GetComponentByType_of_match_error _ _ _ _ list hm⟩
  · have hm : matchResource ToLower rs typeName = .error (.noMatchingType typeName) := by
      unfold matchResource
      rw [matchLoop_partial_of_no_exact ToLower rs typeName hno, hnil]
      rfl
    exact ⟨hm, fun list => GetComponentByType_of_match_error _ _ _ _ list hm⟩
  · unfold matchResource at hr
    rw [matchLoop_eq_filter] at hr
    have hmem := chooseMatch_ok_mem _ _ _ _ hr
    simp only [List.nil_append, List.mem_filter, Bool.and_eq_true, Bool.not_eq_true',
      decide_eq_true_eq] at hmem
    rcases hmem with ⟨hin, hs, _⟩ | ⟨hin, ⟨hs, _⟩, _⟩
    · exact ⟨hin, hs⟩
    · exact ⟨hin, hs⟩

theorem matchResource_no_exact_witness :
    [APIResource.mk "dashboards" "Dashboard", ⟨"kserves", "Kserve"⟩,
        ⟨"kserves/status", ""⟩].filter (fun x =>
      !isSubresource x && decide (lowerASCII x.Name = lowerASCII "kserve")) = [] ∧
    partialCandidates lowerASCII
      [⟨"dashboards", "Dashboard"⟩, ⟨"kserves", "Kserve"⟩, ⟨"kserves/status", ""⟩] "kserve" =
      [⟨"kserves", "Kserve"⟩] ∧
    matchResource lowerASCII
      [⟨"dashboards", "Dashboard"⟩, ⟨"kserves", "Kserve"⟩, ⟨"kserves/status", ""⟩] "kserve" =
      .ok ⟨"kserves", "Kserve"⟩ ∧
    matchResource lowerASCII
      [⟨"dashboards", "Dashboard"⟩, ⟨"kserves", "Kserve"⟩, ⟨"kserves/status", ""⟩] "s" =
      .error (.ambiguous "s" ["dashboards", "kserves"]) :=
  ⟨by decide, by decide,
    ((matchResource_no_exact lowerASCII _ "kserve").1 (by decide)).1 _ (by decide),
    (((matchResource_no_exact lowerASCII
      [⟨"dashboards", "Dashboard"⟩, ⟨"kserves", "Kserve"⟩, ⟨"kserves/status", ""⟩] "s").1
        (by decide)).2.1 (by decide)).1⟩

/-! ### `ListComponents` -/

theorem listLoop_eq_listedItems {κ : Type}
    (listResource : κ → String → κ × Except String (List Value)) (rs : List APIResource)
    (client : κ) (items : List Value) :
    listLoop listResource rs client items =
      ((listedItems listResource (rs.filter (fun r => !isSubresource r)) client).1,
        items ++ (listedItems listResource (rs.filter (fun r => !isSubresource r)) client).2) := by
  induction rs generalizing client items with
  | nil => simp [listLoop, listedItems]
  | cons r rest ih =>
    cases ha : stringsContains r.Name "/" with
    | true => simp [listLoop, isSubresource, ha, ih]
    | false =>
      by_cases hb : r.Kind = ""
      · simp [listLoop, isSubresource, ha, hb, ih]
      · have hsub : (!isSubresource r) = true := by simp [isSubresource, ha, hb]
        have hf : (r :: rest).filter (fun r => !isSubresource r) =
            r :: rest.filter (fun r => !isSubresource r) := by
          simp only [List.filter_cons, hsub, ↓reduceIte]
        rw [hf]
        simp only [listLoop, ha, hb, Bool.false_eq_true, ↓reduceIte, listedItems]
        rcases listResource client r.Name with ⟨client2, e | listed⟩
        · simp only [ih]
        · simp only [ih, List.append_assoc]

theorem listedItems_loggingClient (list : String → Except String (List Value))
    (rs : List APIResource) (log : List String) :
    listedItems (loggingClient list) rs log =
      (log ++ rs.map (fun r => r.Name), concatListed list rs) := by
  induction rs generalizing log with
  | nil => simp [listedItems, concatListed]
  | cons r rest ih =>
    simp only [listedItems, loggingClient, concatListed, List.map_cons]
    cases list r.Name with
    | error e => simp [ih, loggingClient]
    | ok listed => simp [ih, loggingClient]

/-- C14: for every successful discovery result, `ListComponents` returns without
error the items of the resources that are not subresources, each listed in turn in
discovery order, the items of a listing that succeeds appended and a listing that
fails contributing none; the resources it asks the cluster to list are exactly
those that are not subresources, in discovery order. -/
theorem ListComponents_items :
    (∀ (κ : Type) (listResource : κ → String → κ × Except String (List Value))
        (rs : List APIResource) (client : κ),
      ListComponents (.ok rs) listResource client =
        ((listedItems listResource (rs.filter (fun r => !isSubresource r)) client).1,
          .ok (listedItems listResource (rs.filter (fun r => !isSubresource r)) client).2)) ∧
    (∀ (list : String → Except String (List Value)) (rs : List APIResource)
        (log : List String),
      ListComponents (.ok rs) (loggingClient list) log =
        (log ++ (rs.filter (fun r => !isSubresource r)).map (fun r => r.Name),
          .ok (concatListed list (rs.filter (fun r => !isSubresource r))))) := by
  have key : ∀ (κ : Type) (listResource : κ → String → κ × Except String (List Value))
      (rs : List APIResource) (client : κ),
      ListComponents (.ok rs) listResource client =
        ((listedItems listResource (rs.filter (fun r => !isSubresource r)) client).1,
          .ok (listedItems listResource (rs.filter (fun r => !isSubresource r)) client).2) := by
    intro κ listResource rs client
    unfold ListComponents
    dsimp only
    rw [listLoop_eq_listedItems]
    simp
  refine ⟨key, fun list rs log => ?_⟩
  rw [key, listedItems_loggingClient]

theorem ListComponents_items_witness :
    ListComponents
      (.ok [⟨"dashboards", "Dashboard"⟩, ⟨"dashboards/status", "Dashboard"⟩,
        ⟨"kserves", "Kserve"⟩, ⟨"scales", ""⟩, ⟨"rays", "Ray"⟩])
      (loggingClient exampleListing) [] =
      (["dashboards", "kserves", "rays"],
        .ok [.map [("kind", .str "Dashboard")], .map [("kind", .str "Ray")],
          .map [("kind", .str "Ray")]]) :=
  ListComponents_items.2 exampleListing
    [⟨"dashboards", "Dashboard"⟩, ⟨"dashboards/status", "Dashboard"⟩,
      ⟨"kserves", "Kserve"⟩, ⟨"scales", ""⟩, ⟨"rays", "Ray"⟩] []

/-! ### `WithFormatter` -/

theorem lookupFormatter_filter_ne (key other : String) (h : other ≠ key)
    (m : List (String × ColumnFormatter)) :
    lookupFormatter other (m.filter (fun e => !decide (e.1 = key))) =
      lookupFormatter other m := by
  induction m with
  | nil => rfl
  | cons e rest ih =>
    obtain ⟨k, f⟩ := e
    rw [List.filter_cons]
    by_cases hk : k = key
    · have hko : ¬ k = other := fun h2 => h (h2.symm.trans hk)
      simp only [hk, decide_True, Bool.not_true, Bool.false_eq_true, ↓reduceIte]
      rw [ih, ← hk, lookupFormatter, if_neg hko]
    · simp only [hk, decide_False, Bool.not_false, ↓reduceIte, lookupFormatter, ih]

theorem registeredUnder_filter_ne (key : String) (m : List (String × ColumnFormatter)) :
    registeredUnder key (m.filter (fun e => !decide (e.1 = key))) = 0 := by
  induction m with
  | nil => rfl
  | cons e rest ih =>
    obtain ⟨k, f⟩ := e
    rw [List.filter_cons]
    by_cases hk : k = key
    · simp only [hk, decide_True, Bool.not_true, Bool.false_eq_true, ↓reduceIte]
      exact ih
    · simp only [hk, decide_False, Bool.not_false, ↓reduceIte]
      unfold registeredUnder at ih ⊢
      rw [List.filter_cons]
      simp only [hk, decide_False, Bool.false_eq_true, ↓reduceIte]
      exact ih

theorem registeredUnder_setFormatter (key : String) (f : ColumnFormatter)
    (m : List (String × ColumnFormatter)) :
    registeredUnder key (setFormatter key f m) = 1 := by
  have h0 := registeredUnder_filter_ne key m
  unfold registeredUnder at h0 ⊢
  unfold setFormatter
  rw [List.filter_cons]
  simp only [decide_True, ↓reduceIte, List.length_cons, h0]

theorem lookupFormatter_setFormatter_self (key : String) (f : ColumnFormatter)
    (m : List (String × ColumnFormatter)) :
    lookupFormatter key (setFormatter key f m) = some f := by
  simp [setFormatter, lookupFormatter]

theorem lookupFormatter_setFormatter_other (key other : String) (h : other ≠ key)
    (f : ColumnFormatter) (m : List (String × ColumnFormatter)) :
    lookupFormatter other (setFormatter key f m) = lookupFormatter other m := by
  have hne : ¬ key = other := fun h2 => h h2.symm
  rw [setFormatter, lookupFormatter, if_neg hne, lookupFormatter_filter_ne key other h]

/-- C15: for every renderer and all column names a and b with the same upper case,
`WithFormatter(a, f)` followed by `WithFormatter(b, g)` leaves exactly one formatter
registered for the column, namely g; the formatter of every other column, the writer,
the headers, the table options and the rows are those of the renderer before. -/
theorem WithFormatter_replaces (ToUpper : String → String) (r : Renderer) (a b : String)
    (f g : ColumnFormatter) (hab : ToUpper a = ToUpper b) :
    lookupFormatter (ToUpper a)
        (WithFormatter ToUpper b g (WithFormatter ToUpper a f r)).formatters = some g ∧
    registeredUnder (ToUpper a)
        (WithFormatter ToUpper b g (WithFormatter ToUpper a f r)).formatters = 1 ∧
    (∀ key : String, key ≠ ToUpper a →
      lookupFormatter key (WithFormatter ToUpper b g (WithFormatter ToUpper a f r)).formatters =
        lookupFormatter key r.formatters) ∧
    (WithFormatter ToUpper b g (WithFormatter ToUpper a f r)).writer = r.writer ∧
    (WithFormatter ToUpper b g (WithFormatter ToUpper a f r)).headers = r.headers ∧
    (WithFormatter ToUpper b g (WithFormatter ToUpper a f r)).tableOptions = r.tableOptions ∧
    (WithFormatter ToUpper b g (WithFormatter ToUpper a f r)).rows = r.rows := by
  refine ⟨?_, ?_, fun key hkey => ?_, rfl, rfl, rfl, rfl⟩
  · simp only [WithFormatter, hab]
    exact lookupFormatter_setFormatter_self _ _ _
  · simp only [WithFormatter, hab]
    exact registeredUnder_setFormatter _ _ _
  · simp only [WithFormatter, ← hab]
    rw [lookupFormatter_setFormatter_other _ _ hkey, lookupFormatter_setFormatter_other _ _ hkey]

theorem WithFormatter_replaces_witness :
    upperASCII "Status" = upperASCII "STATUS" ∧
    lookupFormatter "STATUS"
      (WithFormatter upperASCII "STATUS" (pureStage (fun _ => .str "second"))
        (WithFormatter upperASCII "Status" (pureStage (fun _ => .str "first"))
          (rendererWithHeaders ["CHECK", "STATUS"]))).formatters =
      some (pureStage (fun _ => .str "second")) :=
  ⟨by decide, (WithFormatter_replaces upperASCII (rendererWithHeaders ["CHECK", "STATUS"])
    "Status" "STATUS" (pureStage (fun _ => .str "first")) (pureStage (fun _ => .str "second"))
    (by decide)).1⟩

end OdhCli
